import Mathlib

/-!
# gz-common `DataFrame.hh`: column resolution and CSV ingestion

A shallow embedding of `include/gz/common/DataFrame.hh`:

* `DataFrame<K, V>` (an `std::unordered_map` behind `Has` and the two `operator[]`),
* `IO<DataFrame<K, InMemoryTimeVaryingVolumetricGrid<T, V>>>::ReadFrom`, by column
  name and by column index.

Exceptions become `Except` values. The per-type decoders `IO<X>::ReadFrom` and the grid
factory of `gz-math` are taken as parameters; `CSVFile` is a record of what its four
accessors return.
-/

namespace gz.common

/-! ## Exceptions -/

/-- The exceptions that can leave `ReadFrom`. -/
inductive Exception where
  /-- A `std::invalid_argument` thrown by `ReadFrom` itself, with its `what()` text. -/
  | invalid_argument (what : String)
  /-- The `std::out_of_range` of a bounds-checked `at`; its `what()` text is left to the
  standard library and is not modelled. -/
  | out_of_range
  /-- Whatever a decoder `IO<X>::ReadFrom` throws, propagated unchanged. -/
  | decode (what : String)
  deriving DecidableEq, Repr

deriving instance DecidableEq for Except

/-! ## The tabular source -/

/-- A row of a CSV file: indexed access to its textual cells (`row[i]`). -/
abbrev Row := Nat → String

/-- Modelled from the spec: the class `CSVFile` of `gz/common/Io.hh` is not part of the
sources at hand. Section 6 of the spec gives its interface: `Header()` is an ordered sequence
of names (possibly empty), `NumColumns()` a count, `Path()` a diagnostic identifier and
`Data()` a finite sequence of rows, each row exposing indexed textual-cell access. -/
structure CSVFile where
  Path : String
  Header : List String
  NumColumns : Nat
  Data : List Row

/-! ## Column resolution (`ReadFrom` by index, lines 100-116) -/

/-- The text of the exception thrown at line 109-112. The two literals `" is"` and
`"out of range for "` are streamed one after the other, as in the source. -/
def rangeMessage (path : String) (index : Nat) : String :=
  "Column index " ++ toString index ++ " is" ++ "out of range for " ++ path

/-- The call `std::find(dataIndices.begin(), last, index)`, as an offset from `begin()`:
the position of the first element equal to `index` among the first `last` ones, and
`last` itself when there is none. -/
def stdFind (dataIndices : List Nat) (last : Nat) (index : Nat) : Nat :=
  (dataIndices.take last).indexOf index

/-- One iteration of the loop of lines 103-115 on the state `(dataIndices, last)`:
look `index` up in `[begin, last)`; throw if it is not there, otherwise overwrite it
with the element before `last` and move `last` one step down. -/
def removeIndex (path : String) (st : List Nat × Nat) (index : Nat) :
    Except Exception (List Nat × Nat) :=
  let dataIndices := st.1
  let last := st.2
  let it := stdFind dataIndices last index
  if it = last then
    .error (.invalid_argument (rangeMessage path index))
  else
    let last := last - 1
    .ok (dataIndices.set it (dataIndices.getD last 0), last)

/-- Lines 100-116: `dataIndices` starts as `0, 1, ..., NumColumns() - 1` (`std::iota`),
the four reserved indices are removed in the order time, coordinate 0, 1, 2, and the tail
from `last` on is erased. -/
def resolveColumns (path : String) (numColumns : Nat) (timeIndex : Nat)
    (coordinateIndices : Nat × Nat × Nat) : Except Exception (List Nat) := do
  let st ← [timeIndex, coordinateIndices.1, coordinateIndices.2.1,
    coordinateIndices.2.2].foldlM (removeIndex path) (List.range numColumns, numColumns)
  pure (st.1.take st.2)

/-! ## The container `DataFrame<K, V>` (lines 35-54) -/

/-- The class `DataFrame<K, V>`: its only member is `storage`, an `std::unordered_map`,
kept here as an association list in which a key is entered at most once. -/
structure DataFrame (K V : Type) where
  storage : List (K × V)
  deriving DecidableEq, Repr

namespace DataFrame

variable {K V : Type} [DecidableEq K]

/-- The call `storage.count(_key)`. -/
def count (df : DataFrame K V) (key : K) : Nat :=
  (df.storage.filter (fun e => decide (e.1 = key))).length

/-- The call `storage.size()`: the number of entries. -/
def size (df : DataFrame K V) : Nat :=
  df.storage.length

/-- Line 38-41: `Has` is `storage.count(_key) > 0`. -/
def Has (df : DataFrame K V) (key : K) : Bool :=
  decide (df.count key > 0)

/-- Line 43-46: the mutable `operator[]` is `storage[_key]`: the value stored under the key
when there is one, otherwise a default-constructed value that is entered under the key.
The result is the value referred to and the container after the call. -/
def operator_index [Inhabited V] (df : DataFrame K V) (key : K) : V × DataFrame K V :=
  match df.storage.find? (fun e => decide (e.1 = key)) with
  | some e => (e.2, df)
  | none => (default, ⟨df.storage ++ [(key, default)]⟩)

/-- Line 48-51: the const `operator[]` is `storage.at(_key)`, which throws
`std::out_of_range` when the key is absent. -/
def operator_index_const (df : DataFrame K V) (key : K) : Except Exception V :=
  match df.storage.find? (fun e => decide (e.1 = key)) with
  | some e => .ok e.2
  | none => .error .out_of_range

/-- The statement `df[key] = value` of line 142: the mutable `operator[]` is called and
`value` is written through the reference it returns. -/
def assign [Inhabited V] (df : DataFrame K V) (key : K) (value : V) : DataFrame K V :=
  ⟨(df.operator_index key).2.storage.map
    (fun e => if e.1 = key then (e.1, value) else e)⟩

end DataFrame

/-! ## The collaborators of `ReadFrom` -/

/-- The code `ReadFrom` calls but does not define: the decoders `IO<K>::ReadFrom`,
`IO<T>::ReadFrom`, `IO<double>::ReadFrom`, `IO<V>::ReadFrom` (each returns a value or throws;
the text of what it throws is the error), and the factory
`math::InMemoryTimeVaryingVolumetricGridFactory<T, V>` with its default constructor,
`AddPoint` and `Build`. `D` stands for `double`, `F` for the factory and `G` for the grid. -/
structure Collaborators (K T V D F G : Type) where
  readK : String → Except String K
  readT : String → Except String T
  readDouble : String → Except String D
  readV : String → Except String V
  newFactory : F
  AddPoint : F → T → D × D × D → V → F
  Build : F → G

/-- A decoder call inside `ReadFrom`: what the decoder throws leaves `ReadFrom` unchanged. -/
def decodeCall {α : Type} (r : Except String α) : Except Exception α :=
  match r with
  | .ok a => .ok a
  | .error what => .error (.decode what)

section ReadFrom

variable {K T V D F G : Type} [DecidableEq K] [Inhabited G]

/-- The inner loop of lines 129-133 for one row: for `i = 0, 1, ...` the cell
`row[dataIndices[i]]` is decoded and added to `factories[i]`. The two vectors have the
same size and are walked in step. -/
def addPoints (c : Collaborators K T V D F G) (row : Row) (time : T) (position : D × D × D) :
    List Nat → List F → Except Exception (List F)
  | j :: dataIndices, f :: factories => do
    let value ← decodeCall (c.readV (row j))
    let f := c.AddPoint f time position value
    let factories ← addPoints c row time position dataIndices factories
    pure (f :: factories)
  | _, _ => pure []

/-- The body of the row loop, lines 123-133: time, then the three coordinates in order,
then the data cells. -/
def readRow (c : Collaborators K T V D F G) (timeIndex : Nat) (coordinateIndices : Nat × Nat × Nat)
    (dataIndices : List Nat) (factories : List F) (row : Row) : Except Exception (List F) := do
  let time ← decodeCall (c.readT (row timeIndex))
  let x ← decodeCall (c.readDouble (row coordinateIndices.1))
  let y ← decodeCall (c.readDouble (row coordinateIndices.2.1))
  let z ← decodeCall (c.readDouble (row coordinateIndices.2.2))
  addPoints c row time (x, y, z) dataIndices factories

/-- Lines 139-141: the key text of the column with index `j`: `Header().at(j)` when the
header is not empty, `"var" + std::to_string(j)` otherwise. -/
def keyText (file : CSVFile) (j : Nat) : Except Exception String :=
  if !file.Header.isEmpty then
    match file.Header[j]? with
    | some name => .ok name
    | none => .error .out_of_range
  else
    .ok ("var" ++ toString j)

/-- The loop of lines 137-143: for `i = 0, 1, ...` the key of column `dataIndices[i]` is
decoded and the grid built by `factories[i]` is stored under it. -/
def populate (c : Collaborators K T V D F G) (file : CSVFile) :
    List Nat → List F → DataFrame K G → Except Exception (DataFrame K G)
  | j :: dataIndices, f :: factories, df => do
    let key ← keyText file j
    let k ← decodeCall (c.readK key)
    populate c file dataIndices factories (df.assign k (c.Build f))
  | _, _, df => pure df

/-- Lines 96-145: `ReadFrom` by column index. -/
def ReadFromByIndex (c : Collaborators K T V D F G) (file : CSVFile) (timeIndex : Nat)
    (coordinateIndices : Nat × Nat × Nat) : Except Exception (DataFrame K G) := do
  let dataIndices ← resolveColumns file.Path file.NumColumns timeIndex coordinateIndices
  let factories := List.replicate dataIndices.length c.newFactory
  let factories ← file.Data.foldlM (readRow c timeIndex coordinateIndices dataIndices) factories
  populate c file dataIndices factories ⟨[]⟩

/-- The default value of `_timeIndex` (line 97). -/
def defaultTimeIndex : Nat := 0

/-- The default value of `_coordinateIndices` (line 98). -/
def defaultCoordinateIndices : Nat × Nat × Nat := (1, 2, 3)

/-- The text of the exception thrown at lines 72-75 and 85-88. -/
def noColumnMessage (path : String) (column : String) : String :=
  path ++ " has no '" ++ column ++ "' column"

/-- The search `std::find(header.begin(), header.end(), column)` followed by the test
`it == header.end()`, lines 69-77 and 82-90: the position of the first occurrence, or the
exception that names the column. -/
def findColumn (file : CSVFile) (column : String) : Except Exception Nat :=
  let it := file.Header.indexOf column
  if it = file.Header.length then
    .error (.invalid_argument (noColumnMessage file.Path column))
  else
    .ok it

/-- Lines 59-94: `ReadFrom` by column name. The loop of lines 80-91 looks the three coordinate
names up in order, after the time name. -/
def ReadFromByName (c : Collaborators K T V D F G) (file : CSVFile) (timeColumn : String)
    (coordinateColumns : String × String × String) : Except Exception (DataFrame K G) := do
  if file.Header.isEmpty then
    throw (.invalid_argument (file.Path ++ " has no header"))
  let timeIndex ← findColumn file timeColumn
  let c0 ← findColumn file coordinateColumns.1
  let c1 ← findColumn file coordinateColumns.2.1
  let c2 ← findColumn file coordinateColumns.2.2
  ReadFromByIndex c file timeIndex (c0, c1, c2)

end ReadFrom

/-! ## A concrete instantiation -/

/-- The arguments of one `AddPoint` call: time, position, value. -/
structure Sample (T V D : Type) where
  time : T
  position : D × D × D
  value : V
  deriving DecidableEq, Repr

/-- Decimal digits to a number; `none` on any other character. -/
def decodeDigits : List Char → Nat → Option Nat
  | [], acc => some acc
  | ch :: rest, acc =>
    if 48 ≤ ch.toNat ∧ ch.toNat ≤ 57 then decodeDigits rest (acc * 10 + (ch.toNat - 48))
    else none

/-- A decoder of unsigned decimal integers, standing for `IO<int>::ReadFrom` and, on such
texts, for `IO<double>::ReadFrom`: it throws on the empty text and on any non-digit. -/
def decodeNat (text : String) : Except String Nat :=
  match text.data with
  | [] => .error "stoi"
  | ch :: rest =>
    match decodeDigits (ch :: rest) 0 with
    | some n => .ok n
    | none => .error "stoi"

/-- Keys and values are strings (`IO<std::string>::ReadFrom` returns its argument), times and
coordinates are decoded by `decodeNat`, and a factory records the samples it is given in
arrival order; `Build` hands the record over. -/
def recording : Collaborators String Nat String Nat
    (List (Sample Nat String Nat)) (List (Sample Nat String Nat)) where
  readK := fun text => .ok text
  readT := decodeNat
  readDouble := decodeNat
  readV := fun text => .ok text
  newFactory := []
  AddPoint := fun f time position value => f ++ [⟨time, position, value⟩]
  Build := fun f => f

/-- A row given by the list of its cells. -/
def rowOf (cells : List String) : Row := fun i => cells.getD i ""

/-- The first index of `indices` that is not below `numColumns` or that occurs in `seen` or
earlier in `indices`; `none` when there is no such index. -/
def firstBad (numColumns : Nat) : List Nat → List Nat → Option Nat
  | _, [] => none
  | seen, index :: indices =>
    if index < numColumns ∧ index ∉ seen then firstBad numColumns (index :: seen) indices
    else some index

section Notions

variable {K T V D F G : Type}

/-- The arguments of the one `AddPoint` call that row `row` causes for column `j`: the
decoded time, position and value, decoded in the order of lines 123-131. -/
def rowSample (c : Collaborators K T V D F G) (timeIndex : Nat)
    (coordinateIndices : Nat × Nat × Nat) (row : Row) (j : Nat) :
    Except Exception (Sample T V D) := do
  let time ← decodeCall (c.readT (row timeIndex))
  let x ← decodeCall (c.readDouble (row coordinateIndices.1))
  let y ← decodeCall (c.readDouble (row coordinateIndices.2.1))
  let z ← decodeCall (c.readDouble (row coordinateIndices.2.2))
  let value ← decodeCall (c.readV (row j))
  pure ⟨time, (x, y, z), value⟩

/-- The call `AddPoint(time, position, value)` on a factory. -/
def addSample (c : Collaborators K T V D F G) (f : F) (s : Sample T V D) : F :=
  c.AddPoint f s.time s.position s.value

/-- The key of the column with index `j`: its key text, decoded by `IO<K>::ReadFrom`. -/
def columnKey (c : Collaborators K T V D F G) (file : CSVFile) (j : Nat) :
    Except Exception K := do
  let key ← keyText file j
  decodeCall (c.readK key)

/-- Every cell that the row loop reads in `row` decodes: the time cell, the three coordinate
cells and the cell of every data column. -/
def RowDecodes (c : Collaborators K T V D F G) (timeIndex : Nat)
    (coordinateIndices : Nat × Nat × Nat) (dataIndices : List Nat) (row : Row) : Prop :=
  (∃ time, c.readT (row timeIndex) = .ok time) ∧
  (∃ x, c.readDouble (row coordinateIndices.1) = .ok x) ∧
  (∃ y, c.readDouble (row coordinateIndices.2.1) = .ok y) ∧
  (∃ z, c.readDouble (row coordinateIndices.2.2) = .ok z) ∧
  ∀ j ∈ dataIndices, ∃ value, c.readV (row j) = .ok value

/-- The statements `df[k] = g` for a list of keys and grids, in list order. -/
def assignAll [DecidableEq K] [Inhabited G] (df : DataFrame K G) (entries : List (K × G)) :
    DataFrame K G :=
  entries.foldl (fun d e => d.assign e.1 e.2) df

end Notions

/-! ## Messages -/

/-- Whether `text` begins with the characters of `part`. -/
def startsWith : List Char → List Char → Bool
  | _, [] => true
  | [], _ :: _ => false
  | a :: text, b :: part => a == b && startsWith text part

/-- Whether the characters of `part` occur in `text` as one contiguous run. -/
def occursIn (part : List Char) : List Char → Bool
  | [] => part.isEmpty
  | a :: text => startsWith (a :: text) part || occursIn part text

/-- Whether a `what()` text carries a given piece of text. -/
def carries (message part : String) : Bool :=
  occursIn part.data message.data

/-- The exception `e` is what one of the decoders threw on some text, passed on as it is. -/
def ThrownByDecoder {K T V D F G : Type} (c : Collaborators K T V D F G) (e : Exception) :
    Prop :=
  ∃ what text, e = .decode what ∧
    (c.readT text = .error what ∨ c.readDouble text = .error what ∨
      c.readV text = .error what ∨ c.readK text = .error what)

/-! ## The reference pipeline -/

section Reference

variable {K T V D F G : Type} [DecidableEq K] [Inhabited G]

/-- The data columns as section 4.2 of the spec words them: the set difference of
`0, ..., N - 1` minus the four reserved indices, in ascending original order. -/
def referenceDataIndices (numColumns : Nat) (timeIndex : Nat)
    (coordinateIndices : Nat × Nat × Nat) : List Nat :=
  (List.range numColumns).filter (fun j =>
    decide (j ∉ [timeIndex, coordinateIndices.1, coordinateIndices.2.1, coordinateIndices.2.2]))

/-- The reference pipeline, after the spec and not after the source: steps 2 to 6 of section 4.3
of the spec (one factory per data column, one pass over the rows, one grid per column stored
under its key) run on the ascending set difference instead of the result of the swap-with-last
removal. It is meant for reserved indices that are in range and pairwise distinct. -/
def ReadFromReference (c : Collaborators K T V D F G) (file : CSVFile) (timeIndex : Nat)
    (coordinateIndices : Nat × Nat × Nat) : Except Exception (DataFrame K G) := do
  let dataIndices := referenceDataIndices file.NumColumns timeIndex coordinateIndices
  let factories := List.replicate dataIndices.length c.newFactory
  let factories ← file.Data.foldlM (readRow c timeIndex coordinateIndices dataIndices) factories
  populate c file dataIndices factories ⟨[]⟩

end Reference

/-- Overwriting the first occurrence of `x` with the last element and dropping the last
slot leaves the list without `x`, up to order. -/
theorem swap_perm_erase (l : List Nat) (x : Nat) (hx : x ∈ l) :
    (l.dropLast.set (l.indexOf x) (l.getLastD 0)).Perm (l.erase x) := by
  induction l with
  | nil => simp at hx
  | cons a l ih =>
    cases l with
    | nil =>
      simp at hx
      subst hx
      simp
    | cons b l =>
      by_cases hax : a = x
      · subst hax
        have h1 : (b :: l).dropLast ++ [(b :: l).getLast (by simp)] = b :: l :=
          List.dropLast_append_getLast (by simp)
        have h2 : ((b :: l).getLast (by simp) :: (b :: l).dropLast).Perm (b :: l) := by
          conv_rhs => rw [← h1]
          exact (List.perm_append_singleton _ _).symm
        simpa [List.getLastD_cons, List.getLast?_eq_getLast] using h2
      · have hx' : x ∈ b :: l := by
          rcases List.mem_cons.1 hx with h | h
          · exact absurd h.symm hax
          · exact h
        have := ih hx'
        rw [List.indexOf_cons_ne _ hax, List.erase_cons_tail (by simpa using hax)]
        simp only [List.dropLast_cons₂, List.set_cons_succ, List.getLastD_cons]
        refine List.Perm.cons a ?_
        rw [List.getLastD_cons] at this
        exact this

/-- The active part `[begin, last)` after one removal. -/
theorem take_after_remove (v : List Nat) (last it : Nat) (h1 : 1 ≤ last)
    (h2 : last ≤ v.length) :
    (v.set it (v.getD (last - 1) 0)).take (last - 1) =
      (v.take last).dropLast.set it ((v.take last).getLastD 0) := by
  have e1 : (v.take last).dropLast = v.take (last - 1) := by
    rw [List.dropLast_eq_take, List.length_take, Nat.min_eq_left h2, List.take_take,
      Nat.min_eq_left (Nat.sub_le _ _)]
  have e2 : (v.take last).getLastD 0 = v.getD (last - 1) 0 := by
    rw [List.getLastD_eq_getLast?, List.getLast?_take, if_neg (by omega),
      List.getD_eq_getElem?_getD]
    have : last - 1 < v.length := by omega
    rw [List.getElem?_eq_getElem this]
    rfl
  rw [List.set_take, e1, e2]

/-- One removal, when the active part holds exactly the indices below `N` not yet seen. -/
theorem removeIndex_spec (path : String) (N : Nat) (seen v : List Nat) (last x : Nat)
    (hlen : last ≤ v.length) (hnd : (v.take last).Nodup)
    (hmem : ∀ y, y ∈ v.take last ↔ y < N ∧ y ∉ seen) :
    if x < N ∧ x ∉ seen then
      ∃ v', removeIndex path (v, last) x = .ok (v', last - 1) ∧ v'.length = v.length ∧
        1 ≤ last ∧ (v'.take (last - 1)).Nodup ∧
        ∀ y, y ∈ v'.take (last - 1) ↔ y < N ∧ y ∉ x :: seen
    else removeIndex path (v, last) x = .error (.invalid_argument (rangeMessage path x)) := by
  have hl : (v.take last).length = last := by simp [hlen]
  split
  · next hx =>
    have hxin : x ∈ v.take last := (hmem x).2 hx
    have hlt : (v.take last).indexOf x < last := by
      have := List.indexOf_lt_length.2 hxin
      omega
    have h1 : 1 ≤ last := by omega
    refine ⟨v.set (stdFind v last x) (v.getD (last - 1) 0), ?_, by simp, h1, ?_, ?_⟩
    · simp only [removeIndex, stdFind]
      rw [if_neg (by omega)]
    · rw [stdFind, take_after_remove v last _ h1 hlen]
      exact (swap_perm_erase _ x hxin).nodup_iff.2 (hnd.erase x)
    · intro y
      rw [stdFind, take_after_remove v last _ h1 hlen,
        (swap_perm_erase _ x hxin).mem_iff, hnd.mem_erase_iff, hmem y]
      simp only [List.mem_cons, not_or]
      tauto
  · next hx =>
    have hxin : x ∉ v.take last := fun h => hx ((hmem x).1 h)
    have : (v.take last).indexOf x = last := by
      rw [List.indexOf_eq_length.2 hxin, hl]
    simp only [removeIndex, stdFind]
    rw [if_pos this]

/-- The whole removal loop: it throws at the first bad index and otherwise leaves exactly
the indices not removed. -/
theorem removeLoop_spec (path : String) (N : Nat) :
    ∀ (indices seen v : List Nat) (last : Nat), last ≤ v.length → (v.take last).Nodup →
      (∀ y, y ∈ v.take last ↔ y < N ∧ y ∉ seen) →
      match firstBad N seen indices with
      | some x => indices.foldlM (removeIndex path) (v, last) =
          .error (.invalid_argument (rangeMessage path x))
      | none => ∃ v', indices.foldlM (removeIndex path) (v, last) =
          .ok (v', last - indices.length) ∧ indices.length ≤ last ∧ v'.length = v.length ∧
          (v'.take (last - indices.length)).Nodup ∧
          ∀ y, y ∈ v'.take (last - indices.length) ↔ y < N ∧ y ∉ seen ∧ y ∉ indices := by
  intro indices
  induction indices with
  | nil =>
    intro seen v last hlen hnd hmem
    simp only [firstBad, List.foldlM, List.length_nil, Nat.sub_zero]
    exact ⟨v, rfl, Nat.zero_le _, rfl, hnd, by simpa using hmem⟩
  | cons x indices ih =>
    intro seen v last hlen hnd hmem
    have step := removeIndex_spec path N seen v last x hlen hnd hmem
    simp only [firstBad]
    by_cases hx : x < N ∧ x ∉ seen
    · rw [if_pos hx] at step ⊢
      obtain ⟨v', hv', hlen', h1, hnd', hmem'⟩ := step
      have := ih (x :: seen) v' (last - 1) (by omega) hnd' hmem'
      revert this
      cases firstBad N (x :: seen) indices with
      | some b =>
        intro this
        simp only [List.foldlM, hv']
        exact this
      | none =>
        rintro ⟨v'', h1'', h2'', h3'', h4'', h5''⟩
        have e : last - 1 - indices.length = last - (x :: indices).length := by
          simp only [List.length_cons]; omega
        rw [e] at h1'' h4'' h5''
        refine ⟨v'', ?_, by simp only [List.length_cons]; omega, by omega, h4'', ?_⟩
        · simp only [List.foldlM, hv']
          exact h1''
        · intro y
          rw [h5'' y]
          simp only [List.mem_cons, not_or]
          tauto
    · rw [if_neg hx] at step ⊢
      simp only [List.foldlM, step]
      rfl

/-- The reserved indices are good exactly when they are in range and pairwise distinct. -/
theorem firstBad_eq_none_iff (N t c0 c1 c2 : Nat) :
    firstBad N [] [t, c0, c1, c2] = none ↔
      (t < N ∧ c0 < N ∧ c1 < N ∧ c2 < N) ∧
      (t ≠ c0 ∧ t ≠ c1 ∧ t ≠ c2 ∧ c0 ≠ c1 ∧ c0 ≠ c2 ∧ c1 ≠ c2) := by
  simp only [firstBad]
  constructor
  · intro h
    repeat (split at h <;> [skip; exact absurd h (by simp)])
    simp only [List.mem_cons, List.mem_singleton, List.not_mem_nil, not_or, or_false] at *
    omega
  · rintro ⟨⟨h1, h2, h3, h4⟩, h5, h6, h7, h8, h9, h10⟩
    simp [h1, h2, h3, h4, h5, h6, h7, h8, h9, h10, Ne.symm h5, Ne.symm h6, Ne.symm h7,
      Ne.symm h8, Ne.symm h9, Ne.symm h10]

/-- Column resolution as a whole. -/
theorem resolveColumns_spec (path : String) (N t c0 c1 c2 : Nat) :
    match firstBad N [] [t, c0, c1, c2] with
    | some x => resolveColumns path N t (c0, c1, c2) =
        .error (.invalid_argument (rangeMessage path x))
    | none => ∃ ds, resolveColumns path N t (c0, c1, c2) = .ok ds ∧ ds.Nodup ∧
        ds.length = N - 4 ∧ ∀ y, y ∈ ds ↔ y < N ∧ y ∉ [t, c0, c1, c2] := by
  have e : (List.range N).take N = List.range N := List.take_of_length_le (by simp)
  have := removeLoop_spec path N [t, c0, c1, c2] [] (List.range N) N (by simp)
    (by rw [e]; exact List.nodup_range N) (by rw [e]; simp)
  revert this
  cases firstBad N [] [t, c0, c1, c2] with
  | some x =>
    intro this
    simp only [resolveColumns, this]
    rfl
  | none =>
    rintro ⟨v', h1, h2, h3, h4, h5⟩
    refine ⟨v'.take (N - 4), ?_, h4, ?_, ?_⟩
    · simp only [resolveColumns, h1]
      rfl
    · simp only [List.length_range] at h3
      simp only [List.length_cons, List.length_nil] at h2
      simp [h3]
    · intro y
      have := h5 y
      simpa using this

/-- The indices that survive, in ascending order: `0, ..., N - 1` without the reserved ones. -/
theorem perm_survivors (N t c0 c1 c2 : Nat) (ds : List Nat) (hnd : ds.Nodup)
    (hmem : ∀ y, y ∈ ds ↔ y < N ∧ y ∉ [t, c0, c1, c2]) :
    ds.Perm ((List.range N).filter (fun j => decide (j ∉ [t, c0, c1, c2]))) := by
  refine (List.perm_ext_iff_of_nodup hnd ((List.nodup_range N).filter _)).2 ?_
  intro y
  rw [hmem y]
  simp

/-! ## The claims on column resolution -/

/-- C1: `ReadFrom` by index fails during column resolution exactly when some reserved index
is not below `NumColumns()` or two reserved indices are equal; the failure does not depend
on the rows or on the decoders, and it is the failure of the whole call. When the four
indices are in range and pairwise distinct, column resolution succeeds. -/
theorem resolution_fails_iff {K T V D F G : Type} [DecidableEq K] [Inhabited G]
    (c : Collaborators K T V D F G) (file : CSVFile) (t c0 c1 c2 : Nat) :
    ((∃ e, resolveColumns file.Path file.NumColumns t (c0, c1, c2) = .error e) ↔
      ((file.NumColumns ≤ t ∨ file.NumColumns ≤ c0 ∨ file.NumColumns ≤ c1 ∨
          file.NumColumns ≤ c2) ∨
        (t = c0 ∨ t = c1 ∨ t = c2 ∨ c0 = c1 ∨ c0 = c2 ∨ c1 = c2))) ∧
    (∀ e, resolveColumns file.Path file.NumColumns t (c0, c1, c2) = .error e →
      ReadFromByIndex c file t (c0, c1, c2) = .error e) ∧
    (((t < file.NumColumns ∧ c0 < file.NumColumns ∧ c1 < file.NumColumns ∧
          c2 < file.NumColumns) ∧
        (t ≠ c0 ∧ t ≠ c1 ∧ t ≠ c2 ∧ c0 ≠ c1 ∧ c0 ≠ c2 ∧ c1 ≠ c2)) →
      ∃ ds, resolveColumns file.Path file.NumColumns t (c0, c1, c2) = .ok ds) := by
  have spec := resolveColumns_spec file.Path file.NumColumns t c0 c1 c2
  have hnone := firstBad_eq_none_iff file.NumColumns t c0 c1 c2
  refine ⟨?_, ?_, ?_⟩
  · cases hb : firstBad file.NumColumns [] [t, c0, c1, c2] with
    | none =>
      rw [hb] at spec
      obtain ⟨ds, hds, -⟩ := spec
      have good := hnone.1 hb
      constructor
      · rintro ⟨e, he⟩
        rw [hds] at he
        cases he
      · intro bad
        omega
    | some x =>
      rw [hb] at spec
      constructor
      · intro _
        by_contra hgood
        have : firstBad file.NumColumns [] [t, c0, c1, c2] = none := hnone.2 (by omega)
        rw [hb] at this
        cases this
      · intro _
        exact ⟨_, spec⟩
  · intro e he
    simp only [ReadFromByIndex, he]
    rfl
  · intro good
    have hb := hnone.2 good
    rw [hb] at spec
    obtain ⟨ds, hds, -⟩ := spec
    exact ⟨ds, hds⟩

/-- C2: with four reserved indices below `N` and pairwise distinct, `dataIndices` has no
duplicates, has length `N - 4`, and holds exactly the indices below `N` that are not
reserved. -/
theorem dataIndices_set (path : String) (N t c0 c1 c2 : Nat)
    (hrange : t < N ∧ c0 < N ∧ c1 < N ∧ c2 < N)
    (hdistinct : t ≠ c0 ∧ t ≠ c1 ∧ t ≠ c2 ∧ c0 ≠ c1 ∧ c0 ≠ c2 ∧ c1 ≠ c2) :
    ∃ ds, resolveColumns path N t (c0, c1, c2) = .ok ds ∧ ds.Nodup ∧ ds.length = N - 4 ∧
      ∀ j, j ∈ ds ↔ (j < N ∧ j ≠ t ∧ j ≠ c0 ∧ j ≠ c1 ∧ j ≠ c2) := by
  have spec := resolveColumns_spec path N t c0 c1 c2
  rw [(firstBad_eq_none_iff N t c0 c1 c2).2 ⟨hrange, hdistinct⟩] at spec
  obtain ⟨ds, hds, hnd, hlen, hmem⟩ := spec
  refine ⟨ds, hds, hnd, hlen, ?_⟩
  intro j
  rw [hmem j]
  simp

/-- Witness of C2: six columns with the default reserved indices. -/
theorem dataIndices_set_witness :
    ∃ ds, resolveColumns "f.csv" 6 0 (1, 2, 3) = .ok ds ∧ ds.Nodup ∧ ds.length = 6 - 4 ∧
      ∀ j, j ∈ ds ↔ (j < 6 ∧ j ≠ 0 ∧ j ≠ 1 ∧ j ≠ 2 ∧ j ≠ 3) :=
  dataIndices_set "f.csv" 6 0 1 2 3 (by decide) (by decide)

/-- C3, as stated, fails: with six columns and the default reserved indices every reserved
index is in range and they are pairwise distinct, yet `dataIndices` is `[5, 4]`, which is not
in ascending order. -/
theorem dataIndices_not_ascending :
    ((0 < 6 ∧ 1 < 6 ∧ 2 < 6 ∧ 3 < 6) ∧
      ((0 : Nat) ≠ 1 ∧ (0 : Nat) ≠ 2 ∧ (0 : Nat) ≠ 3 ∧ (1 : Nat) ≠ 2 ∧ (1 : Nat) ≠ 3 ∧
        (2 : Nat) ≠ 3)) ∧
    resolveColumns "f.csv" 6 0 (1, 2, 3) = .ok [5, 4] ∧
    ¬ ∃ ds, resolveColumns "f.csv" 6 0 (1, 2, 3) = .ok ds ∧ ds.Sorted (· < ·) := by
  refine ⟨by decide, by decide, ?_⟩
  rintro ⟨ds, hds, hsorted⟩
  have h : resolveColumns "f.csv" 6 0 (1, 2, 3) = .ok [5, 4] := by decide
  rw [h] at hds
  cases hds
  revert hsorted
  decide

/-! ## The container -/

namespace DataFrame

variable {K V : Type} [DecidableEq K]

/-- The search that `Has` and both `operator[]` rest on. -/
theorem Has_iff_find (df : DataFrame K V) (k : K) :
    df.Has k = true ↔ (df.storage.find? (fun e => decide (e.1 = k))).isSome = true := by
  simp only [Has, count, decide_eq_true_eq, gt_iff_lt, List.length_pos_iff_exists_mem,
    List.mem_filter, List.find?_isSome]

theorem Has_iff_get (df : DataFrame K V) (k : K) :
    df.Has k = true ↔ ∃ v, df.operator_index_const k = .ok v := by
  rw [Has_iff_find]
  simp only [operator_index_const]
  cases df.storage.find? (fun e => decide (e.1 = k)) <;> simp

/-- Writing through the reference only touches the entries under the key. -/
theorem find_map_assign (l : List (K × V)) (k k' : K) (g : V) :
    (l.map (fun e => if e.1 = k then (e.1, g) else e)).find? (fun e => decide (e.1 = k')) =
      (l.find? (fun e => decide (e.1 = k'))).map (fun e => if e.1 = k then (e.1, g) else e) := by
  rw [List.find?_map]
  congr 2
  funext e
  by_cases h : e.1 = k <;> simp [h]

/-- Reading after `df[k] = g`. -/
theorem get_assign [Inhabited V] (df : DataFrame K V) (k k' : K) (g : V) :
    (df.assign k g).operator_index_const k' =
      if k' = k then .ok g else df.operator_index_const k' := by
  simp only [operator_index_const, assign, operator_index]
  rw [find_map_assign]
  cases h : df.storage.find? (fun e => decide (e.1 = k)) with
  | some e =>
    have hek : e.1 = k := by simpa using List.find?_some h
    by_cases hk : k' = k
    · subst hk
      simp [h, hek]
    · simp only [hk, if_false]
      cases h' : df.storage.find? (fun e => decide (e.1 = k')) with
      | none => simp
      | some e' =>
        have : e'.1 = k' := by simpa using List.find?_some h'
        simp [this, hk]
  | none =>
    simp only [List.find?_append]
    by_cases hk : k' = k
    · subst hk
      simp [h]
    · simp only [hk, if_false]
      cases h' : df.storage.find? (fun e => decide (e.1 = k')) with
      | none => simp [Ne.symm hk]
      | some e' =>
        have : e'.1 = k' := by simpa using List.find?_some h'
        simp [this, hk]

/-- Membership after `df[k] = g`. -/
theorem Has_assign [Inhabited V] (df : DataFrame K V) (k k' : K) (g : V) :
    (df.assign k g).Has k' = true ↔ k' = k ∨ df.Has k' = true := by
  rw [Has_iff_get, Has_iff_get, get_assign]
  by_cases hk : k' = k <;> simp [hk]

/-- The number of entries after `df[k] = g`. -/
theorem size_assign [Inhabited V] (df : DataFrame K V) (k : K) (g : V) :
    (df.assign k g).size = if df.Has k = true then df.size else df.size + 1 := by
  have hf := Has_iff_find df k
  simp only [size, assign, operator_index, List.length_map]
  cases h : df.storage.find? (fun e => decide (e.1 = k)) with
  | some e =>
    rw [h] at hf
    simp [hf.2 rfl]
  | none =>
    rw [h] at hf
    have : ¬ df.Has k = true := fun hh => by simpa using hf.1 hh
    simp [this]

end DataFrame

/-! ## The row loop -/

section Loops

variable {K T V D F G : Type}

theorem decodeCall_eq_ok {α : Type} (r : Except String α) (a : α) :
    decodeCall r = .ok a ↔ r = .ok a := by
  cases r <;> simp [decodeCall]

theorem bind_eq_ok {ε α β : Type} (x : Except ε α) (f : α → Except ε β) (b : β) :
    (x >>= f) = .ok b ↔ ∃ a, x = .ok a ∧ f a = .ok b := by
  cases x <;> simp [bind, Except.bind]

/-- What a successful pass of the inner loop over one row does. -/
theorem addPoints_spec (c : Collaborators K T V D F G) (row : Row) (time : T)
    (position : D × D × D) :
    ∀ (ds : List Nat) (fs fs1 : List F), addPoints c row time position ds fs = .ok fs1 →
      fs.length = ds.length →
      fs1.length = ds.length ∧
      ∀ (i j : Nat) (f : F), ds[i]? = some j → fs[i]? = some f →
        ∃ v, c.readV (row j) = .ok v ∧ fs1[i]? = some (c.AddPoint f time position v) := by
  intro ds
  induction ds with
  | nil =>
    intro fs fs1 h hlen
    cases fs with
    | nil =>
      simp only [addPoints, pure, Except.pure] at h
      cases h
      simp
    | cons f fs => simp at hlen
  | cons j ds ih =>
    intro fs fs1 h hlen
    cases fs with
    | nil => simp at hlen
    | cons f fs =>
      simp only [addPoints, bind_eq_ok, decodeCall_eq_ok] at h
      obtain ⟨v, hv, fs2, hfs2, h⟩ := h
      simp only [pure, Except.pure] at h
      cases h
      have hlen2 : fs.length = ds.length := by simpa using hlen
      obtain ⟨h1, h2⟩ := ih fs fs2 hfs2 hlen2
      refine ⟨by simp [h1], ?_⟩
      intro i j' f' hj hf
      cases i with
      | zero =>
        simp only [List.getElem?_cons_zero, Option.some.injEq] at hj hf
        subst hj hf
        exact ⟨v, hv, by simp⟩
      | succ i =>
        simp only [List.getElem?_cons_succ] at hj hf ⊢
        exact h2 i j' f' hj hf

/-- The inner loop succeeds when every data cell of the row decodes. -/
theorem addPoints_ok (c : Collaborators K T V D F G) (row : Row) (time : T)
    (position : D × D × D) :
    ∀ (ds : List Nat) (fs : List F), (∀ j ∈ ds, ∃ v, c.readV (row j) = .ok v) →
      ∃ fs1, addPoints c row time position ds fs = .ok fs1 := by
  intro ds
  induction ds with
  | nil =>
    intro fs _
    cases fs <;> exact ⟨[], rfl⟩
  | cons j ds ih =>
    intro fs h
    cases fs with
    | nil => exact ⟨[], rfl⟩
    | cons f fs =>
      obtain ⟨v, hv⟩ := h j (by simp)
      obtain ⟨fs1, hfs1⟩ := ih fs (fun j' hj' => h j' (by simp [hj']))
      refine ⟨c.AddPoint f time position v :: fs1, ?_⟩
      simp only [addPoints, bind_eq_ok, decodeCall_eq_ok]
      exact ⟨v, hv, fs1, hfs1, rfl⟩

/-- What a successful pass of the row loop body does. -/
theorem readRow_spec (c : Collaborators K T V D F G) (t : Nat) (cs : Nat × Nat × Nat)
    (ds : List Nat) (fs fs1 : List F) (row : Row)
    (h : readRow c t cs ds fs row = .ok fs1) (hlen : fs.length = ds.length) :
    fs1.length = ds.length ∧ RowDecodes c t cs ds row ∧
    ∀ (i j : Nat) (f : F), ds[i]? = some j → fs[i]? = some f →
      ∃ s, rowSample c t cs row j = .ok s ∧ fs1[i]? = some (addSample c f s) := by
  simp only [readRow, bind_eq_ok, decodeCall_eq_ok] at h
  obtain ⟨time, htime, x, hx, y, hy, z, hz, h⟩ := h
  obtain ⟨h1, h2⟩ := addPoints_spec c row time (x, y, z) ds fs fs1 h hlen
  refine ⟨h1, ⟨⟨time, htime⟩, ⟨x, hx⟩, ⟨y, hy⟩, ⟨z, hz⟩, ?_⟩, ?_⟩
  · intro j hj
    obtain ⟨i, hi⟩ := List.mem_iff_getElem?.1 hj
    have hlt : i < fs.length := by
      rw [hlen]
      by_contra hge
      rw [List.getElem?_eq_none (by omega)] at hi
      cases hi
    obtain ⟨v, hv, -⟩ := h2 i j fs[i] hi (List.getElem?_eq_getElem hlt)
    exact ⟨v, hv⟩
  · intro i j f hj hf
    obtain ⟨v, hv, hfs1⟩ := h2 i j f hj hf
    refine ⟨⟨time, (x, y, z), v⟩, ?_, hfs1⟩
    simp only [rowSample, bind_eq_ok, decodeCall_eq_ok]
    exact ⟨time, htime, x, hx, y, hy, z, hz, v, hv, rfl⟩

/-- The row loop body succeeds when every cell it reads decodes. -/
theorem readRow_ok (c : Collaborators K T V D F G) (t : Nat) (cs : Nat × Nat × Nat)
    (ds : List Nat) (fs : List F) (row : Row) (h : RowDecodes c t cs ds row) :
    ∃ fs1, readRow c t cs ds fs row = .ok fs1 := by
  obtain ⟨⟨time, htime⟩, ⟨x, hx⟩, ⟨y, hy⟩, ⟨z, hz⟩, hv⟩ := h
  obtain ⟨fs1, hfs1⟩ := addPoints_ok c row time (x, y, z) ds fs hv
  refine ⟨fs1, ?_⟩
  simp only [readRow, bind_eq_ok, decodeCall_eq_ok]
  exact ⟨time, htime, x, hx, y, hy, z, hz, hfs1⟩

/-- What a successful row loop does: factory `i` receives, in row order, one sample per row,
taken from column `dataIndices[i]`. -/
theorem rowLoop_spec (c : Collaborators K T V D F G) (t : Nat) (cs : Nat × Nat × Nat)
    (ds : List Nat) :
    ∀ (rows : List Row) (fs fs1 : List F),
      rows.foldlM (readRow c t cs ds) fs = .ok fs1 → fs.length = ds.length →
      fs1.length = ds.length ∧ (∀ row ∈ rows, RowDecodes c t cs ds row) ∧
      ∀ (i j : Nat) (f : F), ds[i]? = some j → fs[i]? = some f →
        ∃ samples, rows.mapM (fun row => rowSample c t cs row j) = .ok samples ∧
          fs1[i]? = some (samples.foldl (addSample c) f) := by
  intro rows
  induction rows with
  | nil =>
    intro fs fs1 h hlen
    simp only [List.foldlM, pure, Except.pure] at h
    cases h
    refine ⟨hlen, by simp, ?_⟩
    intro i j f _ hf
    exact ⟨[], rfl, by simpa using hf⟩
  | cons row rows ih =>
    intro fs fs1 h hlen
    simp only [List.foldlM, bind_eq_ok] at h
    obtain ⟨fs2, hrow, hrest⟩ := h
    obtain ⟨hlen2, hdec, hstep⟩ := readRow_spec c t cs ds fs fs2 row hrow hlen
    obtain ⟨hlen1, hdecs, hloop⟩ := ih fs2 fs1 hrest hlen2
    refine ⟨hlen1, ?_, ?_⟩
    · intro r hr
      rcases List.mem_cons.1 hr with h | h
      · rw [h]; exact hdec
      · exact hdecs r h
    · intro i j f hj hf
      obtain ⟨s, hs, hf2⟩ := hstep i j f hj hf
      obtain ⟨samples, hsamples, hf1⟩ := hloop i j (addSample c f s) hj hf2
      refine ⟨s :: samples, ?_, by simpa using hf1⟩
      simp only [List.mapM_cons, bind_eq_ok]
      exact ⟨s, hs, samples, hsamples, rfl⟩

/-- The row loop succeeds when every cell it reads decodes. -/
theorem rowLoop_ok (c : Collaborators K T V D F G) (t : Nat) (cs : Nat × Nat × Nat)
    (ds : List Nat) :
    ∀ (rows : List Row) (fs : List F), (∀ row ∈ rows, RowDecodes c t cs ds row) →
      ∃ fs1, rows.foldlM (readRow c t cs ds) fs = .ok fs1 := by
  intro rows
  induction rows with
  | nil => intro fs _; exact ⟨fs, rfl⟩
  | cons row rows ih =>
    intro fs h
    obtain ⟨fs2, hfs2⟩ := readRow_ok c t cs ds fs row (h row (by simp))
    obtain ⟨fs1, hfs1⟩ := ih fs2 (fun r hr => h r (by simp [hr]))
    refine ⟨fs1, ?_⟩
    simp only [List.foldlM, bind_eq_ok]
    exact ⟨fs2, hfs2, hfs1⟩

/-! ## The population loop -/

/-- The population loop stores, in order, the grid of factory `i` under the key of column
`dataIndices[i]`, and throws what the first failing key throws. -/
theorem populate_eq [DecidableEq K] [Inhabited G] (c : Collaborators K T V D F G)
    (file : CSVFile) :
    ∀ (ds : List Nat) (fs : List F) (df : DataFrame K G), fs.length = ds.length →
      populate c file ds fs df =
        (ds.mapM (columnKey c file)).map (fun ks => assignAll df (ks.zip (fs.map c.Build))) := by
  intro ds
  induction ds with
  | nil =>
    intro fs df hlen
    cases fs with
    | nil => rfl
    | cons f fs => simp at hlen
  | cons j ds ih =>
    intro fs df hlen
    cases fs with
    | nil => simp at hlen
    | cons f fs =>
      have hlen2 : fs.length = ds.length := by simpa using hlen
      simp only [populate, List.mapM_cons, columnKey]
      cases keyText file j with
      | error e => rfl
      | ok key =>
        simp only [bind, Except.bind]
        cases c.readK key with
        | error e => rfl
        | ok k =>
          simp only [decodeCall]
          rw [ih fs _ hlen2]
          cases ds.mapM (columnKey c file) with
          | error e => rfl
          | ok ks => rfl

/-- The keys of the columns, when all of them decode. -/
theorem mapM_spec {α β : Type} (f : α → Except Exception β) :
    ∀ (ds : List α) (ks : List β), ds.mapM f = .ok ks →
      ks.length = ds.length ∧ (∀ j ∈ ds, ∃ k, f j = .ok k ∧ k ∈ ks) ∧
      (∀ k ∈ ks, ∃ j ∈ ds, f j = .ok k) ∧
      ∀ (i : Nat) (j : α), ds[i]? = some j → ∃ k, f j = .ok k ∧ ks[i]? = some k := by
  intro ds
  induction ds with
  | nil =>
    intro ks h
    simp only [List.mapM_nil, pure, Except.pure] at h
    cases h
    simp
  | cons j ds ih =>
    intro ks h
    simp only [List.mapM_cons, bind_eq_ok] at h
    obtain ⟨k, hk, ks', hks', h⟩ := h
    simp only [pure, Except.pure] at h
    cases h
    obtain ⟨h1, h2, h3, h4⟩ := ih ks' hks'
    refine ⟨by simp [h1], ?_, ?_, ?_⟩
    · intro j' hj'
      rcases List.mem_cons.1 hj' with e | e
      · exact ⟨k, by rw [e]; exact hk, by simp⟩
      · obtain ⟨k', hk', hmem⟩ := h2 j' e
        exact ⟨k', hk', by simp [hmem]⟩
    · intro k' hk'
      rcases List.mem_cons.1 hk' with e | e
      · exact ⟨j, by simp, by rw [e]; exact hk⟩
      · obtain ⟨j', hj', hf⟩ := h3 k' e
        exact ⟨j', by simp [hj'], hf⟩
    · intro i j' hj'
      cases i with
      | zero =>
        simp only [List.getElem?_cons_zero, Option.some.injEq] at hj'
        subst hj'
        exact ⟨k, hk, by simp⟩
      | succ i =>
        simp only [List.getElem?_cons_succ] at hj' ⊢
        exact h4 i j' hj'

/-- All keys decode when each one does. -/
theorem mapM_ok {α β : Type} (f : α → Except Exception β) :
    ∀ (ds : List α), (∀ j ∈ ds, ∃ k, f j = .ok k) → ∃ ks, ds.mapM f = .ok ks := by
  intro ds
  induction ds with
  | nil => intro _; exact ⟨[], rfl⟩
  | cons j ds ih =>
    intro h
    obtain ⟨k, hk⟩ := h j (by simp)
    obtain ⟨ks, hks⟩ := ih (fun j' hj' => h j' (by simp [hj']))
    refine ⟨k :: ks, ?_⟩
    simp only [List.mapM_cons, bind_eq_ok]
    exact ⟨k, hk, ks, hks, rfl⟩

/-- Columns with pairwise distinct keys give a duplicate-free list of keys. -/
theorem mapM_nodup {α β : Type} (f : α → Except Exception β) :
    ∀ (ds : List α) (ks : List β), ds.mapM f = .ok ks → ds.Nodup →
      (∀ i ∈ ds, ∀ j ∈ ds, ∀ k, f i = .ok k → f j = .ok k → i = j) → ks.Nodup := by
  intro ds
  induction ds with
  | nil =>
    intro ks h _ _
    simp only [List.mapM_nil, pure, Except.pure] at h
    cases h
    simp
  | cons j ds ih =>
    intro ks h hnd hinj
    simp only [List.mapM_cons, bind_eq_ok] at h
    obtain ⟨k, hk, ks', hks', h⟩ := h
    simp only [pure, Except.pure] at h
    cases h
    obtain ⟨hj, hnd'⟩ := List.nodup_cons.1 hnd
    refine List.nodup_cons.2 ⟨?_, ih ks' hks' hnd' ?_⟩
    · intro hmem
      obtain ⟨j', hj', hf⟩ := (mapM_spec f ds ks' hks').2.2.1 k hmem
      have := hinj j (by simp) j' (by simp [hj']) k hk hf
      exact hj (this ▸ hj')
    · intro i hi j' hj' k' h1 h2
      exact hinj i (by simp [hi]) j' (by simp [hj']) k' h1 h2

section AssignAll

variable [DecidableEq K] [Inhabited G]

theorem assignAll_cons (df : DataFrame K G) (e : K × G) (entries : List (K × G)) :
    assignAll df (e :: entries) = assignAll (df.assign e.1 e.2) entries := rfl

/-- A key that is not assigned keeps what it had. -/
theorem get_assignAll_of_not_mem :
    ∀ (entries : List (K × G)) (df : DataFrame K G) (k : K), k ∉ entries.map Prod.fst →
      (assignAll df entries).operator_index_const k = df.operator_index_const k := by
  intro entries
  induction entries with
  | nil => intro df k _; rfl
  | cons e entries ih =>
    intro df k hk
    simp only [List.map_cons, List.mem_cons, not_or] at hk
    rw [assignAll_cons, ih _ k hk.2, DataFrame.get_assign, if_neg hk.1]

/-- With pairwise distinct keys, every assigned key holds the grid assigned to it. -/
theorem get_assignAll_of_mem :
    ∀ (entries : List (K × G)) (df : DataFrame K G) (k : K) (g : G),
      (entries.map Prod.fst).Nodup → (k, g) ∈ entries →
      (assignAll df entries).operator_index_const k = .ok g := by
  intro entries
  induction entries with
  | nil => intro df k g _ h; simp at h
  | cons e entries ih =>
    intro df k g hnd hmem
    simp only [List.map_cons, List.nodup_cons] at hnd
    rw [assignAll_cons]
    rcases List.mem_cons.1 hmem with h | h
    · subst h
      rw [get_assignAll_of_not_mem entries _ k hnd.1, DataFrame.get_assign, if_pos rfl]
    · exact ih _ k g hnd.2 h

/-- The keys present after the assignments. -/
theorem Has_assignAll :
    ∀ (entries : List (K × G)) (df : DataFrame K G) (k : K),
      (assignAll df entries).Has k = true ↔ df.Has k = true ∨ k ∈ entries.map Prod.fst := by
  intro entries
  induction entries with
  | nil => intro df k; simp [assignAll]
  | cons e entries ih =>
    intro df k
    rw [assignAll_cons, ih, DataFrame.Has_assign]
    simp only [List.map_cons, List.mem_cons]
    tauto

/-- Every assignment adds at most one entry. -/
theorem size_assignAll_le :
    ∀ (entries : List (K × G)) (df : DataFrame K G),
      (assignAll df entries).size ≤ df.size + entries.length := by
  intro entries
  induction entries with
  | nil => intro df; simp [assignAll]
  | cons e entries ih =>
    intro df
    rw [assignAll_cons]
    have h1 := ih (df.assign e.1 e.2)
    have h2 := DataFrame.size_assign df e.1 e.2
    simp only [List.length_cons]
    split at h2 <;> omega

/-- With pairwise distinct new keys, every assignment adds one entry. -/
theorem size_assignAll_of_nodup :
    ∀ (entries : List (K × G)) (df : DataFrame K G), (entries.map Prod.fst).Nodup →
      (∀ k ∈ entries.map Prod.fst, ¬ df.Has k = true) →
      (assignAll df entries).size = df.size + entries.length := by
  intro entries
  induction entries with
  | nil => intro df _ _; simp [assignAll]
  | cons e entries ih =>
    intro df hnd hnew
    simp only [List.map_cons, List.nodup_cons] at hnd
    rw [assignAll_cons, ih _ hnd.2, DataFrame.size_assign, if_neg (hnew e.1 (by simp))]
    · simp only [List.length_cons]; omega
    · intro k hk hhas
      rcases (DataFrame.Has_assign df e.1 k e.2).1 hhas with h | h
      · exact hnd.1 (h ▸ hk)
      · exact hnew k (by simp [hk]) h

end AssignAll

end Loops

/-! ## `ReadFrom` by index as a whole -/

section Whole

variable {K T V D F G : Type} [DecidableEq K] [Inhabited G]

/-- A successful column resolution: the reserved indices are in range and pairwise distinct,
and `dataIndices` holds the other indices, each once. -/
theorem resolveColumns_ok (path : String) (N t : Nat) (cs : Nat × Nat × Nat) (ds : List Nat)
    (h : resolveColumns path N t cs = .ok ds) :
    ds.Nodup ∧ ds.length = N - 4 ∧ (∀ y, y ∈ ds ↔ y < N ∧ y ∉ [t, cs.1, cs.2.1, cs.2.2]) ∧
    firstBad N [] [t, cs.1, cs.2.1, cs.2.2] = none := by
  have spec := resolveColumns_spec path N t cs.1 cs.2.1 cs.2.2
  cases hb : firstBad N [] [t, cs.1, cs.2.1, cs.2.2] with
  | some x =>
    rw [hb] at spec
    rw [show (cs.1, cs.2.1, cs.2.2) = cs from rfl, h] at spec
    cases spec
  | none =>
    rw [hb] at spec
    obtain ⟨ds', hds', h1, h2, h3⟩ := spec
    rw [show (cs.1, cs.2.1, cs.2.2) = cs from rfl, h] at hds'
    cases hds'
    exact ⟨h1, h2, h3, rfl⟩

/-- The three stages of a successful `ReadFrom` by index. -/
theorem ReadFromByIndex_eq_ok_iff (c : Collaborators K T V D F G) (file : CSVFile) (t : Nat)
    (cs : Nat × Nat × Nat) (df : DataFrame K G) :
    ReadFromByIndex c file t cs = .ok df ↔
      ∃ ds fs ks, resolveColumns file.Path file.NumColumns t cs = .ok ds ∧
        file.Data.foldlM (readRow c t cs ds) (List.replicate ds.length c.newFactory) = .ok fs ∧
        ds.mapM (columnKey c file) = .ok ks ∧
        df = assignAll ⟨[]⟩ (ks.zip (fs.map c.Build)) := by
  simp only [ReadFromByIndex, bind_eq_ok]
  constructor
  · rintro ⟨ds, hds, fs, hfs, hpop⟩
    have hlen := (rowLoop_spec c t cs ds file.Data _ fs hfs (by simp)).1
    rw [populate_eq c file ds fs _ hlen] at hpop
    cases hks : ds.mapM (columnKey c file) with
    | error e => rw [hks] at hpop; cases hpop
    | ok ks =>
      rw [hks] at hpop
      simp only [Except.map, Except.ok.injEq] at hpop
      exact ⟨ds, fs, ks, hds, hfs, hks, hpop.symm⟩
  · rintro ⟨ds, fs, ks, hds, hfs, hks, hdf⟩
    have hlen := (rowLoop_spec c t cs ds file.Data _ fs hfs (by simp)).1
    refine ⟨ds, hds, fs, hfs, ?_⟩
    rw [populate_eq c file ds fs _ hlen, hks, hdf]
    rfl

end Whole

/-! ## The claims on `ReadFrom` -/

section Claims

variable {K T V D F G : Type}

/-- C3, amended: with four reserved indices below `N` and pairwise distinct, `dataIndices`
is a permutation of the strictly ascending list of the surviving column indices (it need not
be ascending itself), and the factories are ordered as `dataIndices` is: after the row loop
there are as many factories as data columns, and factory `i` has received, in row order, the
samples of column `dataIndices[i]`. -/
theorem dataIndices_perm_ascending (c : Collaborators K T V D F G) (path : String)
    (N t c0 c1 c2 : Nat) (hrange : t < N ∧ c0 < N ∧ c1 < N ∧ c2 < N)
    (hdistinct : t ≠ c0 ∧ t ≠ c1 ∧ t ≠ c2 ∧ c0 ≠ c1 ∧ c0 ≠ c2 ∧ c1 ≠ c2) :
    ∃ ds, resolveColumns path N t (c0, c1, c2) = .ok ds ∧
      ds.Perm ((List.range N).filter (fun j => decide (j ∉ [t, c0, c1, c2]))) ∧
      ((List.range N).filter (fun j => decide (j ∉ [t, c0, c1, c2]))).Sorted (· < ·) ∧
      ∀ (rows : List Row) (fs : List F),
        rows.foldlM (readRow c t (c0, c1, c2) ds) (List.replicate ds.length c.newFactory) =
          .ok fs →
        fs.length = ds.length ∧
        ∀ (i j : Nat), ds[i]? = some j →
          ∃ samples, rows.mapM (fun row => rowSample c t (c0, c1, c2) row j) = .ok samples ∧
            fs[i]? = some (samples.foldl (addSample c) c.newFactory) := by
  have spec := resolveColumns_spec path N t c0 c1 c2
  rw [(firstBad_eq_none_iff N t c0 c1 c2).2 ⟨hrange, hdistinct⟩] at spec
  obtain ⟨ds, hds, hnd, -, hmem⟩ := spec
  refine ⟨ds, hds, perm_survivors N t c0 c1 c2 ds hnd hmem,
    (List.sorted_lt_range N).filter _, ?_⟩
  intro rows fs hfs
  obtain ⟨hlen, -, hfeed⟩ := rowLoop_spec c t (c0, c1, c2) ds rows _ fs hfs (by simp)
  refine ⟨hlen, ?_⟩
  intro i j hj
  have hi : i < ds.length := by
    by_contra hge
    rw [List.getElem?_eq_none (by omega)] at hj
    cases hj
  exact hfeed i j c.newFactory hj (by simp [List.getElem?_replicate, hi])

/-- Witness of the amended C3: six columns with the default reserved indices. -/
theorem dataIndices_perm_ascending_witness :
    ∃ ds, resolveColumns "f.csv" 6 0 (1, 2, 3) = .ok ds ∧
      ds.Perm ((List.range 6).filter (fun j => decide (j ∉ [0, 1, 2, 3]))) ∧
      ((List.range 6).filter (fun j => decide (j ∉ [0, 1, 2, 3]))).Sorted (· < ·) ∧
      ∀ (rows : List Row) (fs : List (List (Sample Nat String Nat))),
        rows.foldlM (readRow recording 0 (1, 2, 3) ds)
          (List.replicate ds.length recording.newFactory) = .ok fs →
        fs.length = ds.length ∧
        ∀ (i j : Nat), ds[i]? = some j →
          ∃ samples, rows.mapM (fun row => rowSample recording 0 (1, 2, 3) row j) =
              .ok samples ∧
            fs[i]? = some (samples.foldl (addSample recording) recording.newFactory) :=
  dataIndices_perm_ascending recording "f.csv" 6 0 1 2 3 (by decide) (by decide)

/-- A name that occurs in the header is found at its first occurrence. -/
theorem findColumn_of_mem (file : CSVFile) (column : String) (h : column ∈ file.Header) :
    findColumn file column = .ok (file.Header.indexOf column) := by
  have := List.indexOf_lt_length.2 h
  simp only [findColumn]
  rw [if_neg (by omega)]

/-- A name that does not occur in the header is reported. -/
theorem findColumn_of_not_mem (file : CSVFile) (column : String) (h : column ∉ file.Header) :
    findColumn file column =
      .error (.invalid_argument (noColumnMessage file.Path column)) := by
  simp only [findColumn]
  rw [if_pos (List.indexOf_eq_length.2 h)]

/-- C4, as stated, fails: with an empty header the requested time column `T` is missing,
but the error is the one of the empty-header check and does not name `T`. -/
theorem ReadFromByName_empty_header :
    "T" ∉ (⟨"f.csv", [], 5, []⟩ : CSVFile).Header ∧
    ReadFromByName recording ⟨"f.csv", [], 5, []⟩ "T" ("X", "Y", "Z") =
      .error (.invalid_argument "f.csv has no header") ∧
    ReadFromByName recording ⟨"f.csv", [], 5, []⟩ "T" ("X", "Y", "Z") ≠
      .error (.invalid_argument (noColumnMessage "f.csv" "T")) := by
  refine ⟨by decide, by decide, by decide⟩

/-- C4, amended: when the header is not empty and some requested name does not occur in it,
`ReadFrom` by name fails with the error that names the first missing name in the order time,
coordinate 0, 1, 2; this holds whatever the rows and the decoders are. -/
theorem ReadFromByName_missing [DecidableEq K] [Inhabited G]
    (c : Collaborators K T V D F G) (file : CSVFile)
    (timeColumn : String) (coordinateColumns : String × String × String) (missing : String)
    (hheader : file.Header ≠ [])
    (hmissing : [timeColumn, coordinateColumns.1, coordinateColumns.2.1,
      coordinateColumns.2.2].find? (fun name => decide (name ∉ file.Header)) = some missing) :
    ReadFromByName c file timeColumn coordinateColumns =
      .error (.invalid_argument (noColumnMessage file.Path missing)) := by
  have hne : file.Header.isEmpty = false := by
    cases h : file.Header with
    | nil => exact absurd h hheader
    | cons a l => rfl
  simp only [ReadFromByName, hne]
  simp only [List.find?_cons, List.find?_nil] at hmissing
  by_cases h0 : timeColumn ∈ file.Header
  · rw [findColumn_of_mem file _ h0]
    by_cases h1 : coordinateColumns.1 ∈ file.Header
    · rw [findColumn_of_mem file _ h1]
      by_cases h2 : coordinateColumns.2.1 ∈ file.Header
      · rw [findColumn_of_mem file _ h2]
        by_cases h3 : coordinateColumns.2.2 ∈ file.Header
        · simp [h0, h1, h2, h3] at hmissing
        · simp only [h0, h1, h2, h3, not_true_eq_false, not_false_eq_true, decide_True,
            decide_False, Option.some.injEq] at hmissing
          rw [findColumn_of_not_mem file _ h3, hmissing]
          rfl
      · simp only [h0, h1, h2, not_true_eq_false, not_false_eq_true, decide_True,
          decide_False, Option.some.injEq] at hmissing
        rw [findColumn_of_not_mem file _ h2, hmissing]
        rfl
    · simp only [h0, h1, not_true_eq_false, not_false_eq_true, decide_True,
        decide_False, Option.some.injEq] at hmissing
      rw [findColumn_of_not_mem file _ h1, hmissing]
      rfl
  · simp only [h0, not_false_eq_true, decide_True, Option.some.injEq] at hmissing
    rw [findColumn_of_not_mem file _ h0, hmissing]
    rfl

/-- Witness of the amended C4: the header lacks the second coordinate column. -/
theorem ReadFromByName_missing_witness :
    (⟨"f.csv", ["t", "x", "z", "temp"], 4, [rowOf ["0", "0", "0", "25.0"]]⟩ : CSVFile).Header
      ≠ [] ∧
    ReadFromByName recording
      ⟨"f.csv", ["t", "x", "z", "temp"], 4, [rowOf ["0", "0", "0", "25.0"]]⟩
      "t" ("x", "y", "z") = .error (.invalid_argument "f.csv has no 'y' column") :=
  ⟨by decide,
    ReadFromByName_missing recording
      ⟨"f.csv", ["t", "x", "z", "temp"], 4, [rowOf ["0", "0", "0", "25.0"]]⟩
      "t" ("x", "y", "z") "y" (by decide) (by decide)⟩

/-- C5: when the header contains the four requested names, `ReadFrom` by name returns what
`ReadFrom` by index returns for the positions of their first occurrences: the same error, or
the same container. -/
theorem ReadFromByName_eq_ReadFromByIndex [DecidableEq K] [Inhabited G]
    (c : Collaborators K T V D F G) (file : CSVFile)
    (timeColumn : String) (coordinateColumns : String × String × String)
    (htime : timeColumn ∈ file.Header)
    (hcoordinates : coordinateColumns.1 ∈ file.Header ∧ coordinateColumns.2.1 ∈ file.Header ∧
      coordinateColumns.2.2 ∈ file.Header) :
    ReadFromByName c file timeColumn coordinateColumns =
      ReadFromByIndex c file (file.Header.indexOf timeColumn)
        (file.Header.indexOf coordinateColumns.1, file.Header.indexOf coordinateColumns.2.1,
          file.Header.indexOf coordinateColumns.2.2) := by
  have hne : file.Header.isEmpty = false := by
    cases h : file.Header with
    | nil => rw [h] at htime; simp at htime
    | cons a l => rfl
  simp only [ReadFromByName, hne, findColumn_of_mem file _ htime,
    findColumn_of_mem file _ hcoordinates.1, findColumn_of_mem file _ hcoordinates.2.1,
    findColumn_of_mem file _ hcoordinates.2.2]
  rfl

/-- Witness of C5: a header with the four names in a different order and a repeated name. -/
theorem ReadFromByName_eq_ReadFromByIndex_witness :
    ("t" ∈ ["x", "t", "temp", "y", "z", "t"] ∧ "x" ∈ ["x", "t", "temp", "y", "z", "t"] ∧
      "y" ∈ ["x", "t", "temp", "y", "z", "t"] ∧ "z" ∈ ["x", "t", "temp", "y", "z", "t"]) ∧
    ReadFromByName recording
      ⟨"f.csv", ["x", "t", "temp", "y", "z", "t"], 6,
        [rowOf ["1", "0", "25.0", "2", "3", "7"]]⟩ "t" ("x", "y", "z") =
      ReadFromByIndex recording
        ⟨"f.csv", ["x", "t", "temp", "y", "z", "t"], 6,
          [rowOf ["1", "0", "25.0", "2", "3", "7"]]⟩ 1 (0, 3, 4) :=
  ⟨by decide,
    ReadFromByName_eq_ReadFromByIndex recording
      ⟨"f.csv", ["x", "t", "temp", "y", "z", "t"], 6,
        [rowOf ["1", "0", "25.0", "2", "3", "7"]]⟩ "t" ("x", "y", "z")
      (by decide) (by decide)⟩

end Claims

section Claims

variable {K T V D F G : Type}

/-- C6: after a successful `ReadFrom` by index whose surviving columns have pairwise distinct
keys, the grid stored under the key of a surviving column `j` is the `Build()` of a fresh
factory that received, for each row in row order, the one sample decoded from that row for
column `j`, and nothing else. In particular the single-row source with header
`t,x,y,z,temp` and row `0,0,0,0,25.0` gives a container with the one key `temp`, built from
the single sample (time 0, position (0, 0, 0), value 25.0). -/
theorem grid_of_column [DecidableEq K] [Inhabited G] (c : Collaborators K T V D F G) :
    (∀ (file : CSVFile) (t : Nat) (cs : Nat × Nat × Nat) (df : DataFrame K G) (ds : List Nat),
      ReadFromByIndex c file t cs = .ok df →
      resolveColumns file.Path file.NumColumns t cs = .ok ds →
      (∀ i ∈ ds, ∀ j ∈ ds, ∀ k, columnKey c file i = .ok k → columnKey c file j = .ok k →
        i = j) →
      ∀ j ∈ ds, ∃ k samples, columnKey c file j = .ok k ∧
        file.Data.mapM (fun row => rowSample c t cs row j) = .ok samples ∧
        df.operator_index_const k =
          .ok (c.Build (samples.foldl (addSample c) c.newFactory))) ∧
    (∀ (path : String) (time : T) (zero : D) (value : V) (key : K),
      c.readT "0" = .ok time → c.readDouble "0" = .ok zero → c.readV "25.0" = .ok value →
      c.readK "temp" = .ok key →
      ReadFromByIndex c ⟨path, ["t", "x", "y", "z", "temp"], 5,
          [rowOf ["0", "0", "0", "0", "25.0"]]⟩ defaultTimeIndex defaultCoordinateIndices =
        .ok ⟨[(key, c.Build (c.AddPoint c.newFactory time (zero, zero, zero) value))]⟩) := by
  constructor
  · intro file t cs df ds hok hds hdistinct j hj
    obtain ⟨ds', fs, ks, hds', hfs, hks, hdf⟩ := (ReadFromByIndex_eq_ok_iff c file t cs df).1 hok
    rw [hds] at hds'
    cases hds'
    obtain ⟨hnd, -, -, -⟩ := resolveColumns_ok _ _ _ _ _ hds
    obtain ⟨hlen, -, hfeed⟩ := rowLoop_spec c t cs ds file.Data _ fs hfs (by simp)
    obtain ⟨hklen, -, -, hkey⟩ := mapM_spec (columnKey c file) ds ks hks
    have hknd := mapM_nodup (columnKey c file) ds ks hks hnd hdistinct
    obtain ⟨i, hi⟩ := List.mem_iff_getElem?.1 hj
    have hilt : i < ds.length := by
      by_contra hge
      rw [List.getElem?_eq_none (by omega)] at hi
      cases hi
    obtain ⟨k, hk, hki⟩ := hkey i j hi
    obtain ⟨samples, hsamples, hfi⟩ :=
      hfeed i j c.newFactory hi (by simp [List.getElem?_replicate, hilt])
    refine ⟨k, samples, hk, hsamples, ?_⟩
    rw [hdf]
    apply get_assignAll_of_mem
    · rw [List.map_fst_zip]
      · exact hknd
      · simp [hklen, hlen]
    · apply List.mem_iff_getElem?.2
      refine ⟨i, ?_⟩
      rw [List.getElem?_zip_eq_some]
      exact ⟨hki, by simp [hfi]⟩
  · intro path time zero value key htime hzero hvalue hkey
    have hds : resolveColumns path 5 0 (1, 2, 3) = .ok [4] := rfl
    simp only [ReadFromByIndex, defaultTimeIndex, defaultCoordinateIndices, hds]
    simp [bind, Except.bind, readRow, addPoints, rowOf, htime, hzero, hvalue, hkey, decodeCall,
      populate, keyText, pure, Except.pure, DataFrame.assign, DataFrame.operator_index]

/-- Witness of C6: the single-row source of the claim, read with keys and values kept as
text and a factory that records its samples. -/
theorem grid_of_column_witness :
    ReadFromByIndex recording
      ⟨"f.csv", ["t", "x", "y", "z", "temp"], 5, [rowOf ["0", "0", "0", "0", "25.0"]]⟩
      0 (1, 2, 3) = .ok ⟨[("temp", [⟨0, (0, 0, 0), "25.0"⟩])]⟩ ∧
    resolveColumns "f.csv" 5 0 (1, 2, 3) = .ok [4] ∧
    ∃ k samples,
      columnKey recording
        ⟨"f.csv", ["t", "x", "y", "z", "temp"], 5, [rowOf ["0", "0", "0", "0", "25.0"]]⟩ 4 =
        .ok k ∧
      [rowOf ["0", "0", "0", "0", "25.0"]].mapM
        (fun row => rowSample recording 0 (1, 2, 3) row 4) = .ok samples ∧
      (⟨[("temp", [⟨0, (0, 0, 0), "25.0"⟩])]⟩ :
          DataFrame String (List (Sample Nat String Nat))).operator_index_const k =
        .ok (recording.Build (samples.foldl (addSample recording) recording.newFactory)) :=
  ⟨by decide, by decide,
    (grid_of_column recording).1
      ⟨"f.csv", ["t", "x", "y", "z", "temp"], 5, [rowOf ["0", "0", "0", "0", "25.0"]]⟩
      0 (1, 2, 3) ⟨[("temp", [⟨0, (0, 0, 0), "25.0"⟩])]⟩ [4] (by decide) (by decide)
      (by
        intro i hi j hj k _ _
        simp only [List.mem_singleton] at hi hj
        rw [hi, hj])
      4 (by decide)⟩

end Claims

/-! ## Decimal text -/

/-- The character of a decimal digit and its value. -/
theorem digitChar_spec (m : Nat) (h : m < 10) :
    48 ≤ (Nat.digitChar m).toNat ∧ (Nat.digitChar m).toNat ≤ 57 ∧
      (Nat.digitChar m).toNat - 48 = m := by
  interval_cases m <;> decide

/-- Reading back the digits that `std::to_string` writes. -/
theorem decodeDigits_toDigitsCore :
    ∀ (fuel n : Nat) (ds : List Char), n < fuel →
      ∃ digits, Nat.toDigitsCore 10 fuel n ds = digits ++ ds ∧ digits ≠ [] ∧
        ∀ (rest : List Char) (acc : Nat),
          decodeDigits (digits ++ rest) acc =
            decodeDigits rest (acc * 10 ^ digits.length + n) := by
  intro fuel
  induction fuel with
  | zero => intro n ds h; omega
  | succ fuel ih =>
    intro n ds h
    obtain ⟨d1, d2, d3⟩ := digitChar_spec (n % 10) (Nat.mod_lt _ (by decide))
    simp only [Nat.toDigitsCore]
    by_cases hz : n / 10 = 0
    · rw [if_pos hz]
      refine ⟨[Nat.digitChar (n % 10)], rfl, by simp, ?_⟩
      intro rest acc
      have hn : n % 10 = n := Nat.mod_eq_of_lt (by omega)
      simp only [List.singleton_append, decodeDigits, d1, d2, and_self, if_true, d3,
        List.length_singleton, pow_one]
      rw [hn]
      rfl
    · rw [if_neg hz]
      obtain ⟨digits, h1, h2, h3⟩ := ih (n / 10) (Nat.digitChar (n % 10) :: ds) (by omega)
      refine ⟨digits ++ [Nat.digitChar (n % 10)], by simp [h1], by simp, ?_⟩
      intro rest acc
      rw [List.append_assoc, h3]
      simp only [List.singleton_append, decodeDigits, d1, d2, and_self, if_true, d3,
        List.length_append, List.length_singleton]
      congr 1
      have := Nat.div_add_mod n 10
      rw [pow_succ]
      nlinarith [this]

/-- The text `std::to_string(n)` is the decimal representation of `n`: decoding it gives `n`
back. -/
theorem decodeNat_toString (n : Nat) : decodeNat (toString n) = .ok n := by
  obtain ⟨digits, h1, h2, h3⟩ := decodeDigits_toDigitsCore (n + 1) n [] (by omega)
  have hdata : (toString n).data = digits := by
    show (Nat.repr n).data = digits
    simp only [Nat.repr, Nat.toDigits, List.asString, h1, List.append_nil]
  have hdec : decodeDigits digits 0 = some n := by
    have := h3 [] 0
    simpa [decodeDigits] using this
  simp only [decodeNat, hdata]
  cases digits with
  | nil => exact absurd rfl h2
  | cons ch rest => simp only [hdec]

/-- Different indices have different decimal texts. -/
theorem toString_injective (i j : Nat) (h : toString i = toString j) : i = j := by
  have hi := decodeNat_toString i
  rw [h, decodeNat_toString j] at hi
  cases hi
  rfl

/-- Different indices have different synthesized names. -/
theorem var_injective (i j : Nat) (h : "var" ++ toString i = "var" ++ toString j) : i = j := by
  apply toString_injective
  have := congrArg String.data h
  simp only [String.data_append, List.append_cancel_left_eq] at this
  exact String.ext this

/-! ## The claims on the returned container -/

section Claims

variable {K T V D F G : Type}

/-- The key of a column: the key text exists and decodes. -/
theorem columnKey_eq_ok_iff (c : Collaborators K T V D F G) (file : CSVFile) (j : Nat) (k : K) :
    columnKey c file j = .ok k ↔ ∃ key, keyText file j = .ok key ∧ c.readK key = .ok k := by
  simp only [columnKey, bind_eq_ok, decodeCall_eq_ok]

/-- The key text exists when there is no header or the header reaches the column. -/
theorem keyText_eq_ok_iff (file : CSVFile) (j : Nat) (key : String) :
    keyText file j = .ok key ↔
      (file.Header = [] ∧ key = "var" ++ toString j) ∨
      (file.Header ≠ [] ∧ file.Header[j]? = some key) := by
  simp only [keyText]
  cases hh : file.Header with
  | nil => simp [eq_comm]
  | cons a l =>
    simp only [List.isEmpty_cons, Bool.not_false, if_true]
    cases hj : (a :: l)[j]? with
    | none => simp
    | some name => simp

/-- C7, as stated, fails: with header `t,x,y,z,a,a`, six columns and the default reserved
indices (pairwise distinct), `ReadFrom` by index returns a container with one entry, not
`6 - 4`. -/
theorem container_size_duplicate_names :
    (⟨"f.csv", ["t", "x", "y", "z", "a", "a"], 6,
      [rowOf ["0", "0", "0", "0", "1", "2"]]⟩ : CSVFile).Header ≠ [] ∧
    ((0 : Nat) ≠ 1 ∧ (0 : Nat) ≠ 2 ∧ (0 : Nat) ≠ 3 ∧ (1 : Nat) ≠ 2 ∧ (1 : Nat) ≠ 3 ∧
      (2 : Nat) ≠ 3) ∧
    ReadFromByIndex recording
      ⟨"f.csv", ["t", "x", "y", "z", "a", "a"], 6, [rowOf ["0", "0", "0", "0", "1", "2"]]⟩
      0 (1, 2, 3) = .ok ⟨[("a", [⟨0, (0, 0, 0), "1"⟩])]⟩ ∧
    (⟨[("a", [⟨0, (0, 0, 0), "1"⟩])]⟩ :
      DataFrame String (List (Sample Nat String Nat))).size ≠ 6 - 4 := by
  refine ⟨by decide, by decide, by decide, by decide⟩

/-- C7, amended: a container returned by `ReadFrom` by index has at most `NumColumns() - 4`
entries, and exactly `NumColumns() - 4`, one per surviving data column, when the surviving
columns have pairwise distinct keys. -/
theorem container_size [DecidableEq K] [Inhabited G] (c : Collaborators K T V D F G)
    (file : CSVFile) (t : Nat) (cs : Nat × Nat × Nat) (df : DataFrame K G) (ds : List Nat)
    (hok : ReadFromByIndex c file t cs = .ok df)
    (hds : resolveColumns file.Path file.NumColumns t cs = .ok ds) :
    df.size ≤ file.NumColumns - 4 ∧
    ((∀ i ∈ ds, ∀ j ∈ ds, ∀ k, columnKey c file i = .ok k → columnKey c file j = .ok k →
        i = j) →
      df.size = file.NumColumns - 4 ∧ df.size = ds.length) := by
  obtain ⟨ds', fs, ks, hds', hfs, hks, hdf⟩ := (ReadFromByIndex_eq_ok_iff c file t cs df).1 hok
  rw [hds] at hds'
  cases hds'
  obtain ⟨hnd, hdslen, -, -⟩ := resolveColumns_ok _ _ _ _ _ hds
  obtain ⟨hlen, -, -⟩ := rowLoop_spec c t cs ds file.Data _ fs hfs (by simp)
  obtain ⟨hklen, -, -, -⟩ := mapM_spec (columnKey c file) ds ks hks
  have hzip : (ks.zip (fs.map c.Build)).length = ds.length := by
    simp [hklen, hlen]
  constructor
  · have := size_assignAll_le (ks.zip (fs.map c.Build)) (⟨[]⟩ : DataFrame K G)
    rw [hdf, ← hdslen]
    simpa [DataFrame.size, hzip] using this
  · intro hdistinct
    have hknd := mapM_nodup (columnKey c file) ds ks hks hnd hdistinct
    have := size_assignAll_of_nodup (ks.zip (fs.map c.Build)) (⟨[]⟩ : DataFrame K G)
      (by rw [List.map_fst_zip]
          · exact hknd
          · simp [hklen, hlen])
      (by intro k _; simp [DataFrame.Has, DataFrame.count])
    rw [hdf, this, hzip]
    simp [DataFrame.size, hdslen]

/-- Witness of the amended C7: header `t,x,y,z,a,b`, whose two data columns have distinct
keys. -/
theorem container_size_witness :
    ReadFromByIndex recording
      ⟨"f.csv", ["t", "x", "y", "z", "a", "b"], 6, [rowOf ["0", "0", "0", "0", "1", "2"]]⟩
      0 (1, 2, 3) = .ok ⟨[("b", [⟨0, (0, 0, 0), "2"⟩]), ("a", [⟨0, (0, 0, 0), "1"⟩])]⟩ ∧
    resolveColumns "f.csv" 6 0 (1, 2, 3) = .ok [5, 4] ∧
    (⟨[("b", [⟨0, (0, 0, 0), "2"⟩]), ("a", [⟨0, (0, 0, 0), "1"⟩])]⟩ :
      DataFrame String (List (Sample Nat String Nat))).size = 6 - 4 :=
  ⟨by decide, by decide,
    ((container_size recording
      ⟨"f.csv", ["t", "x", "y", "z", "a", "b"], 6, [rowOf ["0", "0", "0", "0", "1", "2"]]⟩
      0 (1, 2, 3) ⟨[("b", [⟨0, (0, 0, 0), "2"⟩]), ("a", [⟨0, (0, 0, 0), "1"⟩])]⟩ [5, 4]
      (by decide) (by decide)).2
      (by
        intro i hi j hj k h1 h2
        simp only [List.mem_cons, List.mem_singleton, List.not_mem_nil, or_false] at hi hj
        rcases hi with rfl | rfl <;> rcases hj with rfl | rfl
        · rfl
        · rw [show columnKey recording
            ⟨"f.csv", ["t", "x", "y", "z", "a", "b"], 6,
              [rowOf ["0", "0", "0", "0", "1", "2"]]⟩ 5 = .ok "b" from by decide] at h1
          rw [show columnKey recording
            ⟨"f.csv", ["t", "x", "y", "z", "a", "b"], 6,
              [rowOf ["0", "0", "0", "0", "1", "2"]]⟩ 4 = .ok "a" from by decide] at h2
          rw [← h1] at h2
          exact absurd h2 (by decide)
        · rw [show columnKey recording
            ⟨"f.csv", ["t", "x", "y", "z", "a", "b"], 6,
              [rowOf ["0", "0", "0", "0", "1", "2"]]⟩ 4 = .ok "a" from by decide] at h1
          rw [show columnKey recording
            ⟨"f.csv", ["t", "x", "y", "z", "a", "b"], 6,
              [rowOf ["0", "0", "0", "0", "1", "2"]]⟩ 5 = .ok "b" from by decide] at h2
          rw [← h1] at h2
          exact absurd h2 (by decide)
        · rfl)).1⟩

end Claims

section Claims

variable {K T V D F G : Type}

/-- C8: with an empty header the key text of the column with index `j` is `var` followed by
the decimal representation of `j` (index 4 gives `var4`), and these texts are pairwise
distinct; with a non-empty header the key text of the column with index `j` is `header[j]`,
for every column the header reaches (index 4 of `t,x,y,z,temp` gives `temp`), and a
successful `ReadFrom` by index has found it for every surviving column. In both cases the
keys of the returned container are the decoded key texts of the surviving columns. -/
theorem key_text [DecidableEq K] [Inhabited G] (c : Collaborators K T V D F G) :
    (∀ (file : CSVFile) (j : Nat), file.Header = [] →
      keyText file j = .ok ("var" ++ toString j) ∧ decodeNat (toString j) = .ok j) ∧
    keyText ⟨"f.csv", [], 5, []⟩ 4 = .ok "var4" ∧
    (∀ i j : Nat, "var" ++ toString i = "var" ++ toString j → i = j) ∧
    (∀ (file : CSVFile) (j : Nat) (name : String), file.Header ≠ [] →
      file.Header[j]? = some name → keyText file j = .ok name) ∧
    keyText ⟨"f.csv", ["t", "x", "y", "z", "temp"], 5, []⟩ 4 = .ok "temp" ∧
    (∀ (file : CSVFile) (t : Nat) (cs : Nat × Nat × Nat) (df : DataFrame K G) (ds : List Nat),
      ReadFromByIndex c file t cs = .ok df →
      resolveColumns file.Path file.NumColumns t cs = .ok ds →
      (file.Header ≠ [] →
        ∀ j ∈ ds, ∃ name, file.Header[j]? = some name ∧ keyText file j = .ok name) ∧
      (∀ k, df.Has k = true ↔
        ∃ j ∈ ds, ∃ key, keyText file j = .ok key ∧ c.readK key = .ok k)) := by
  refine ⟨?_, by decide, var_injective, ?_, by decide, ?_⟩
  · intro file j hh
    exact ⟨(keyText_eq_ok_iff file j _).2 (Or.inl ⟨hh, rfl⟩), decodeNat_toString j⟩
  · intro file j name hh hname
    exact (keyText_eq_ok_iff file j name).2 (Or.inr ⟨hh, hname⟩)
  · intro file t cs df ds hok hds
    obtain ⟨ds', fs, ks, hds', hfs, hks, hdf⟩ := (ReadFromByIndex_eq_ok_iff c file t cs df).1 hok
    rw [hds] at hds'
    cases hds'
    obtain ⟨hlen, -, -⟩ := rowLoop_spec c t cs ds file.Data _ fs hfs (by simp)
    obtain ⟨hklen, hfwd, hbwd, -⟩ := mapM_spec (columnKey c file) ds ks hks
    constructor
    · intro hh j hj
      obtain ⟨k, hk, -⟩ := hfwd j hj
      obtain ⟨key, hkey, -⟩ := (columnKey_eq_ok_iff c file j k).1 hk
      rcases (keyText_eq_ok_iff file j key).1 hkey with h | h
      · exact absurd h.1 hh
      · exact ⟨key, h.2, hkey⟩
    · intro k
      rw [hdf, Has_assignAll, List.map_fst_zip _ _ (by simp [hklen, hlen])]
      have hempty : ¬ (⟨[]⟩ : DataFrame K G).Has k = true := by
        simp [DataFrame.Has, DataFrame.count]
      constructor
      · rintro (h | h)
        · exact absurd h hempty
        · obtain ⟨j, hj, hk⟩ := hbwd k h
          exact ⟨j, hj, (columnKey_eq_ok_iff c file j k).1 hk⟩
      · rintro ⟨j, hj, hkey⟩
        obtain ⟨k', hk', hmem⟩ := hfwd j hj
        rw [(columnKey_eq_ok_iff c file j k).2 hkey] at hk'
        cases hk'
        exact Or.inr hmem

/-- Witness of C8: six columns read with the default reserved indices, once without header,
where the keys of the container are `var5` and `var4`, and once with the header
`t,x,y,z,a,b`, where the key texts of the surviving columns 5 and 4 are the header names `b`
and `a`. -/
theorem key_text_witness :
    (ReadFromByIndex recording ⟨"f.csv", [], 6, [rowOf ["0", "0", "0", "0", "1", "2"]]⟩
        0 (1, 2, 3) =
        .ok ⟨[("var5", [⟨0, (0, 0, 0), "2"⟩]), ("var4", [⟨0, (0, 0, 0), "1"⟩])]⟩ ∧
      resolveColumns "f.csv" 6 0 (1, 2, 3) = .ok [5, 4] ∧
      ((⟨[("var5", [⟨0, (0, 0, 0), "2"⟩]), ("var4", [⟨0, (0, 0, 0), "1"⟩])]⟩ :
          DataFrame String (List (Sample Nat String Nat))).Has "var4" = true ↔
        ∃ j ∈ [5, 4], ∃ key,
          keyText ⟨"f.csv", [], 6, [rowOf ["0", "0", "0", "0", "1", "2"]]⟩ j = .ok key ∧
          recording.readK key = .ok "var4")) ∧
    (ReadFromByIndex recording
        ⟨"f.csv", ["t", "x", "y", "z", "a", "b"], 6, [rowOf ["0", "0", "0", "0", "1", "2"]]⟩
        0 (1, 2, 3) = .ok ⟨[("b", [⟨0, (0, 0, 0), "2"⟩]), ("a", [⟨0, (0, 0, 0), "1"⟩])]⟩ ∧
      (⟨"f.csv", ["t", "x", "y", "z", "a", "b"], 6,
        [rowOf ["0", "0", "0", "0", "1", "2"]]⟩ : CSVFile).Header ≠ [] ∧
      (∀ j ∈ [5, 4], ∃ name,
        (⟨"f.csv", ["t", "x", "y", "z", "a", "b"], 6,
          [rowOf ["0", "0", "0", "0", "1", "2"]]⟩ : CSVFile).Header[j]? = some name ∧
        keyText ⟨"f.csv", ["t", "x", "y", "z", "a", "b"], 6,
          [rowOf ["0", "0", "0", "0", "1", "2"]]⟩ j = .ok name) ∧
      keyText ⟨"f.csv", ["t", "x", "y", "z", "a", "b"], 6,
        [rowOf ["0", "0", "0", "0", "1", "2"]]⟩ 5 = .ok "b") :=
  ⟨⟨by decide, by decide,
    ((key_text recording).2.2.2.2.2
      ⟨"f.csv", [], 6, [rowOf ["0", "0", "0", "0", "1", "2"]]⟩ 0 (1, 2, 3)
      ⟨[("var5", [⟨0, (0, 0, 0), "2"⟩]), ("var4", [⟨0, (0, 0, 0), "1"⟩])]⟩ [5, 4]
      (by decide) (by decide)).2 "var4"⟩,
   ⟨by decide, by decide,
    ((key_text recording).2.2.2.2.2
      ⟨"f.csv", ["t", "x", "y", "z", "a", "b"], 6, [rowOf ["0", "0", "0", "0", "1", "2"]]⟩
      0 (1, 2, 3) ⟨[("b", [⟨0, (0, 0, 0), "2"⟩]), ("a", [⟨0, (0, 0, 0), "1"⟩])]⟩ [5, 4]
      (by decide) (by decide)).1 (by decide),
    (key_text recording).2.2.2.1
      ⟨"f.csv", ["t", "x", "y", "z", "a", "b"], 6, [rowOf ["0", "0", "0", "0", "1", "2"]]⟩
      5 "b" (by decide) (by decide)⟩⟩

/-- The first bad index splits the list of reserved indices: before it every index is in
range and new, and it is itself out of range or already seen. -/
theorem firstBad_eq_some_iff (N : Nat) :
    ∀ (indices seen : List Nat) (x : Nat), firstBad N seen indices = some x ↔
      ∃ before after, indices = before ++ x :: after ∧ (∀ y ∈ before, y < N ∧ y ∉ seen) ∧
        before.Nodup ∧ (N ≤ x ∨ x ∈ seen ∨ x ∈ before) := by
  intro indices
  induction indices with
  | nil =>
    intro seen x
    simp [firstBad]
  | cons a indices ih =>
    intro seen x
    simp only [firstBad]
    by_cases ha : a < N ∧ a ∉ seen
    · rw [if_pos ha, ih]
      constructor
      · rintro ⟨before, after, h1, h2, h3, h4⟩
        refine ⟨a :: before, after, by simp [h1], ?_, ?_, ?_⟩
        · intro y hy
          rcases List.mem_cons.1 hy with e | e
          · rw [e]; exact ha
          · exact ⟨(h2 y e).1, fun hs => (h2 y e).2 (by simp [hs])⟩
        · refine List.nodup_cons.2 ⟨fun hmem => (h2 a hmem).2 (by simp), h3⟩
        · rcases h4 with h | h | h
          · exact Or.inl h
          · rcases List.mem_cons.1 h with e | e
            · exact Or.inr (Or.inr (by simp [e]))
            · exact Or.inr (Or.inl e)
          · exact Or.inr (Or.inr (by simp [h]))
      · rintro ⟨before, after, h1, h2, h3, h4⟩
        cases before with
        | nil =>
          simp only [List.nil_append, List.cons.injEq] at h1
          obtain ⟨rfl, -⟩ := h1
          rcases h4 with h | h | h
          · omega
          · exact absurd h ha.2
          · simp at h
        | cons b before =>
          simp only [List.cons_append, List.cons.injEq] at h1
          obtain ⟨rfl, h1⟩ := h1
          obtain ⟨hb, h3⟩ := List.nodup_cons.1 h3
          refine ⟨before, after, h1, ?_, h3, ?_⟩
          · intro y hy
            refine ⟨(h2 y (by simp [hy])).1, ?_⟩
            intro hmem
            rcases List.mem_cons.1 hmem with e | e
            · exact hb (e ▸ hy)
            · exact (h2 y (by simp [hy])).2 e
          · rcases h4 with h | h | h
            · exact Or.inl h
            · exact Or.inr (Or.inl (by simp [h]))
            · rcases List.mem_cons.1 h with e | e
              · exact Or.inr (Or.inl (by simp [e]))
              · exact Or.inr (Or.inr e)
    · rw [if_neg ha]
      constructor
      · intro h
        cases h
        refine ⟨[], indices, rfl, by simp, by simp, ?_⟩
        by_cases hN : a < N
        · exact Or.inr (Or.inl (by_contra fun hs => ha ⟨hN, hs⟩))
        · exact Or.inl (by omega)
      · rintro ⟨before, after, h1, h2, h3, h4⟩
        cases before with
        | nil =>
          simp only [List.nil_append, List.cons.injEq] at h1
          rw [h1.1]
        | cons b before =>
          simp only [List.cons_append, List.cons.injEq] at h1
          obtain ⟨rfl, -⟩ := h1
          exact absurd (h2 a (by simp)) ha

/-- C9, as stated, fails: with five columns, time index 0 and coordinate indices (0, 9, 2) the
reserved index 9 is out of range, but the error names the index 0. -/
theorem ReadFromByIndex_names_other_index :
    (⟨"f.csv", ["t", "x", "y", "z", "temp"], 5,
      [rowOf ["0", "0", "0", "0", "25.0"]]⟩ : CSVFile).NumColumns ≤ 9 ∧
    ReadFromByIndex recording
      ⟨"f.csv", ["t", "x", "y", "z", "temp"], 5, [rowOf ["0", "0", "0", "0", "25.0"]]⟩
      0 (0, 9, 2) = .error (.invalid_argument "Column index 0 isout of range for f.csv") ∧
    ReadFromByIndex recording
      ⟨"f.csv", ["t", "x", "y", "z", "temp"], 5, [rowOf ["0", "0", "0", "0", "25.0"]]⟩
      0 (0, 9, 2) ≠ .error (.invalid_argument (rangeMessage "f.csv" 9)) := by
  refine ⟨by decide, by decide, by decide⟩

/-- C9, amended: if some reserved index is not below `NumColumns()`, `ReadFrom` by index fails
with the `std::invalid_argument` that names a reserved index: the first one, in the order time,
coordinate 0, 1, 2, that is out of range or equal to an earlier one. It names the out-of-range
index `r` itself when the reserved indices before `r` are in range and pairwise distinct. -/
theorem ReadFromByIndex_out_of_range [DecidableEq K] [Inhabited G]
    (c : Collaborators K T V D F G) (file : CSVFile) (t : Nat) (cs : Nat × Nat × Nat)
    (h : file.NumColumns ≤ t ∨ file.NumColumns ≤ cs.1 ∨ file.NumColumns ≤ cs.2.1 ∨
      file.NumColumns ≤ cs.2.2) :
    (∃ before x after, [t, cs.1, cs.2.1, cs.2.2] = before ++ x :: after ∧
      (∀ y ∈ before, y < file.NumColumns) ∧ before.Nodup ∧
      (file.NumColumns ≤ x ∨ x ∈ before) ∧
      ReadFromByIndex c file t cs =
        .error (.invalid_argument (rangeMessage file.Path x))) ∧
    (∀ before r after, [t, cs.1, cs.2.1, cs.2.2] = before ++ r :: after →
      (∀ y ∈ before, y < file.NumColumns) → before.Nodup → file.NumColumns ≤ r →
      ReadFromByIndex c file t cs =
        .error (.invalid_argument (rangeMessage file.Path r))) := by
  have spec := resolveColumns_spec file.Path file.NumColumns t cs.1 cs.2.1 cs.2.2
  have herr : ∀ x, firstBad file.NumColumns [] [t, cs.1, cs.2.1, cs.2.2] = some x →
      ReadFromByIndex c file t cs =
        .error (.invalid_argument (rangeMessage file.Path x)) := by
    intro x hx
    rw [hx] at spec
    simp only [ReadFromByIndex]
    rw [show cs = (cs.1, cs.2.1, cs.2.2) from rfl, spec]
    rfl
  constructor
  · cases hb : firstBad file.NumColumns [] [t, cs.1, cs.2.1, cs.2.2] with
    | none =>
      have := (firstBad_eq_none_iff _ _ _ _ _).1 hb
      omega
    | some x =>
      obtain ⟨before, after, h1, h2, h3, h4⟩ := (firstBad_eq_some_iff _ _ _ _).1 hb
      refine ⟨before, x, after, h1, fun y hy => (h2 y hy).1, h3, ?_, herr x hb⟩
      rcases h4 with h | h | h
      · exact Or.inl h
      · simp at h
      · exact Or.inr h
  · intro before r after h1 h2 h3 h4
    apply herr
    exact (firstBad_eq_some_iff _ _ _ _).2
      ⟨before, after, h1, fun y hy => ⟨h2 y hy, by simp⟩, h3, Or.inl h4⟩

/-- Witness of the amended C9: five columns and the reserved indices (0, 1, 9, 2). -/
theorem ReadFromByIndex_out_of_range_witness :
    ((5 : Nat) ≤ 0 ∨ (5 : Nat) ≤ 1 ∨ (5 : Nat) ≤ 9 ∨ (5 : Nat) ≤ 2) ∧
    ReadFromByIndex recording
      ⟨"f.csv", ["t", "x", "y", "z", "temp"], 5, [rowOf ["0", "0", "0", "0", "25.0"]]⟩
      0 (1, 9, 2) = .error (.invalid_argument "Column index 9 isout of range for f.csv") :=
  ⟨by decide,
    (ReadFromByIndex_out_of_range recording
      ⟨"f.csv", ["t", "x", "y", "z", "temp"], 5, [rowOf ["0", "0", "0", "0", "25.0"]]⟩
      0 (1, 9, 2) (by decide)).2 [0, 1] 9 [2] (by decide) (by decide) (by decide)
      (by decide)⟩

end Claims

section Claims

variable {K T V D F G : Type}

/-- C10, as stated, fails: the header `t,x,y,z` is shorter than the five columns. Column
resolution succeeds, every cell of the one row decodes and no key text can fail to decode
(the key decoder accepts every text), yet `ReadFrom` by index returns no container: the
lookup `Header().at(4)` throws. -/
theorem ReadFromByIndex_short_header :
    resolveColumns "f.csv" 5 0 (1, 2, 3) = .ok [4] ∧
    (∀ row ∈ (⟨"f.csv", ["t", "x", "y", "z"], 5,
        [rowOf ["0", "0", "0", "0", "25.0"]]⟩ : CSVFile).Data,
      RowDecodes recording 0 (1, 2, 3) [4] row) ∧
    (∀ key : String, ∃ k, recording.readK key = .ok k) ∧
    ReadFromByIndex recording
      ⟨"f.csv", ["t", "x", "y", "z"], 5, [rowOf ["0", "0", "0", "0", "25.0"]]⟩
      0 (1, 2, 3) = .error .out_of_range := by
  refine ⟨by decide, ?_, fun key => ⟨key, rfl⟩, by decide⟩
  intro row hrow
  simp only [List.mem_singleton] at hrow
  subst hrow
  refine ⟨⟨0, by decide⟩, ⟨0, by decide⟩, ⟨0, by decide⟩, ⟨0, by decide⟩, ?_⟩
  intro j _
  exact ⟨_, rfl⟩

/-- C10, amended: once column resolution has succeeded, `ReadFrom` by index returns a
container exactly when every needed cell of every row decodes and every surviving column has
a key text (the header is empty or reaches the column) that decodes; otherwise it returns an
error and no container. A returned container is fully populated: it has the key of every
surviving column. -/
theorem ReadFromByIndex_atomic [DecidableEq K] [Inhabited G] (c : Collaborators K T V D F G)
    (file : CSVFile) (t : Nat) (cs : Nat × Nat × Nat) (ds : List Nat)
    (hds : resolveColumns file.Path file.NumColumns t cs = .ok ds) :
    ((∃ df, ReadFromByIndex c file t cs = .ok df) ↔
      (∀ row ∈ file.Data, RowDecodes c t cs ds row) ∧
      ∀ j ∈ ds, (file.Header = [] ∨ j < file.Header.length) ∧
        ∀ key, keyText file j = .ok key → ∃ k, c.readK key = .ok k) ∧
    ((¬ ∃ df, ReadFromByIndex c file t cs = .ok df) →
      ∃ e, ReadFromByIndex c file t cs = .error e) ∧
    (∀ df, ReadFromByIndex c file t cs = .ok df →
      ∀ j ∈ ds, ∃ k, columnKey c file j = .ok k ∧ df.Has k = true) := by
  refine ⟨?_, ?_, ?_⟩
  · constructor
    · rintro ⟨df, hok⟩
      obtain ⟨ds', fs, ks, hds', hfs, hks, -⟩ :=
        (ReadFromByIndex_eq_ok_iff c file t cs df).1 hok
      rw [hds] at hds'
      cases hds'
      obtain ⟨-, hrows, -⟩ := rowLoop_spec c t cs ds file.Data _ fs hfs (by simp)
      obtain ⟨-, hfwd, -, -⟩ := mapM_spec (columnKey c file) ds ks hks
      refine ⟨hrows, ?_⟩
      intro j hj
      obtain ⟨k, hk, -⟩ := hfwd j hj
      obtain ⟨key, hkey, hread⟩ := (columnKey_eq_ok_iff c file j k).1 hk
      constructor
      · rcases (keyText_eq_ok_iff file j key).1 hkey with h | h
        · exact Or.inl h.1
        · right
          by_contra hge
          rw [List.getElem?_eq_none (by omega)] at h
          cases h.2
      · intro key' hkey'
        rw [hkey] at hkey'
        cases hkey'
        exact ⟨k, hread⟩
    · rintro ⟨hrows, hkeys⟩
      obtain ⟨fs, hfs⟩ := rowLoop_ok c t cs ds file.Data
        (List.replicate ds.length c.newFactory) hrows
      have hall : ∀ j ∈ ds, ∃ k, columnKey c file j = .ok k := by
        intro j hj
        obtain ⟨havail, hdec⟩ := hkeys j hj
        have hkey : ∃ key, keyText file j = .ok key := by
          rcases havail with h | h
          · exact ⟨_, (keyText_eq_ok_iff file j _).2 (Or.inl ⟨h, rfl⟩)⟩
          · refine ⟨file.Header[j], (keyText_eq_ok_iff file j _).2 (Or.inr ⟨?_, ?_⟩)⟩
            · intro hnil
              rw [hnil] at h
              simp at h
            · exact List.getElem?_eq_getElem h
        obtain ⟨key, hkey⟩ := hkey
        obtain ⟨k, hk⟩ := hdec key hkey
        exact ⟨k, (columnKey_eq_ok_iff c file j k).2 ⟨key, hkey, hk⟩⟩
      obtain ⟨ks, hks⟩ := mapM_ok (columnKey c file) ds hall
      exact ⟨_, (ReadFromByIndex_eq_ok_iff c file t cs _).2 ⟨ds, fs, ks, hds, hfs, hks, rfl⟩⟩
  · intro hno
    cases hr : ReadFromByIndex c file t cs with
    | error e => exact ⟨e, rfl⟩
    | ok df => exact absurd ⟨df, hr⟩ hno
  · intro df hok j hj
    obtain ⟨ds', fs, ks, hds', hfs, hks, hdf⟩ :=
      (ReadFromByIndex_eq_ok_iff c file t cs df).1 hok
    rw [hds] at hds'
    cases hds'
    obtain ⟨hlen, -, -⟩ := rowLoop_spec c t cs ds file.Data _ fs hfs (by simp)
    obtain ⟨hklen, hfwd, -, -⟩ := mapM_spec (columnKey c file) ds ks hks
    obtain ⟨k, hk, hmem⟩ := hfwd j hj
    refine ⟨k, hk, ?_⟩
    rw [hdf, Has_assignAll, List.map_fst_zip _ _ (by simp [hklen, hlen])]
    exact Or.inr hmem

/-- Witness of the amended C10: the single-row source with header `t,x,y,z,temp`; the returned
container has the key of the one surviving column. -/
theorem ReadFromByIndex_atomic_witness :
    resolveColumns "f.csv" 5 0 (1, 2, 3) = .ok [4] ∧
    ReadFromByIndex recording
      ⟨"f.csv", ["t", "x", "y", "z", "temp"], 5, [rowOf ["0", "0", "0", "0", "25.0"]]⟩
      0 (1, 2, 3) = .ok ⟨[("temp", [⟨0, (0, 0, 0), "25.0"⟩])]⟩ ∧
    ∃ k, columnKey recording
        ⟨"f.csv", ["t", "x", "y", "z", "temp"], 5, [rowOf ["0", "0", "0", "0", "25.0"]]⟩ 4 =
        .ok k ∧
      (⟨[("temp", [⟨0, (0, 0, 0), "25.0"⟩])]⟩ :
        DataFrame String (List (Sample Nat String Nat))).Has k = true :=
  ⟨by decide, by decide,
    (ReadFromByIndex_atomic recording
      ⟨"f.csv", ["t", "x", "y", "z", "temp"], 5, [rowOf ["0", "0", "0", "0", "25.0"]]⟩
      0 (1, 2, 3) [4] (by decide)).2.2 ⟨[("temp", [⟨0, (0, 0, 0), "25.0"⟩])]⟩ (by decide)
      4 (by decide)⟩

end Claims

/-! ## The claims on the container operations -/

namespace DataFrame

variable {K V : Type} [DecidableEq K]

/-- The mutable `operator[]`, by cases on the search for the key. -/
theorem operator_index_cases [Inhabited V] (df : DataFrame K V) (k : K) :
    (∃ e, df.storage.find? (fun e => decide (e.1 = k)) = some e ∧
      df.operator_index k = (e.2, df)) ∨
    (df.storage.find? (fun e => decide (e.1 = k)) = none ∧
      df.operator_index k = (default, ⟨df.storage ++ [(k, default)]⟩)) := by
  simp only [operator_index]
  cases h : df.storage.find? (fun e => decide (e.1 = k)) with
  | some e => exact Or.inl ⟨e, rfl, rfl⟩
  | none => exact Or.inr ⟨rfl, rfl⟩

theorem Has_eq_false_iff_find (df : DataFrame K V) (k : K) :
    df.Has k = false ↔ df.storage.find? (fun e => decide (e.1 = k)) = none := by
  have h := Has_iff_find df k
  cases hf : df.storage.find? (fun e => decide (e.1 = k)) with
  | none =>
    rw [hf] at h
    simp only [Option.isSome_none, Bool.false_eq_true, iff_false, Bool.not_eq_true] at h
    simp [h]
  | some e =>
    rw [hf] at h
    simp only [Option.isSome_some, iff_true] at h
    simp [h]

end DataFrame

section Claims

variable {K V : Type}

/-- C11: `Has(k)` is false on a freshly constructed `DataFrame`, and it is true right after the
mutable `operator[]` was called with `k`, whatever the container held before; when `k` was
absent, the value then stored under `k` is the default-constructed one. -/
theorem Has_after_operator_index [DecidableEq K] [Inhabited V] (df : DataFrame K V) (k : K) :
    (⟨[]⟩ : DataFrame K V).Has k = false ∧
    (df.operator_index k).2.Has k = true ∧
    (df.Has k = false →
      (df.operator_index k).1 = default ∧
      (df.operator_index k).2.operator_index_const k = .ok default) := by
  refine ⟨by simp [DataFrame.Has, DataFrame.count], ?_, ?_⟩
  · rw [DataFrame.Has_iff_find]
    rcases DataFrame.operator_index_cases df k with ⟨e, hf, hop⟩ | ⟨hf, hop⟩
    · rw [hop, hf]
      rfl
    · rw [hop]
      simp [hf]
  · intro hno
    have hf := (DataFrame.Has_eq_false_iff_find df k).1 hno
    rcases DataFrame.operator_index_cases df k with ⟨e, hf', -⟩ | ⟨-, hop⟩
    · rw [hf] at hf'
      cases hf'
    · rw [hop]
      simp [DataFrame.operator_index_const, hf]

/-- C12: the const `operator[]` fails with `std::out_of_range` on a key that is not present and
returns the stored value on a key that is present, the one the mutable `operator[]` returns.
As a const member it is a function of the container alone and yields no new container: the
container after the call is the container before it, and nothing is inserted. -/
theorem operator_index_const_spec [DecidableEq K] [Inhabited V] (df : DataFrame K V) (k : K) :
    (df.Has k = false → df.operator_index_const k = .error .out_of_range) ∧
    (df.Has k = true →
      ∃ v, df.operator_index_const k = .ok v ∧ (k, v) ∈ df.storage ∧
        v = (df.operator_index k).1) := by
  constructor
  · intro hno
    have hf := (DataFrame.Has_eq_false_iff_find df k).1 hno
    simp [DataFrame.operator_index_const, hf]
  · intro hyes
    rcases DataFrame.operator_index_cases df k with ⟨e, hf, hop⟩ | ⟨hf, -⟩
    · have hk : e.1 = k := by simpa using List.find?_some hf
      refine ⟨e.2, by simp [DataFrame.operator_index_const, hf], ?_, by rw [hop]⟩
      have := List.mem_of_find?_eq_some hf
      rw [← hk]
      exact this
    · rw [(DataFrame.Has_eq_false_iff_find df k).2 hf] at hyes
      cases hyes

/-- C13: the mutable `operator[]` returns the stored value and leaves the container as it was
when the key is present; when the key is absent it adds one entry, under that key. In both
cases every other key is present or absent as before and holds the value it held. -/
theorem operator_index_frame [DecidableEq K] [Inhabited V] (df : DataFrame K V) (k : K) :
    (df.Has k = true →
      (df.operator_index k).2 = df ∧
      df.operator_index_const k = .ok (df.operator_index k).1) ∧
    (df.Has k = false →
      (df.operator_index k).1 = default ∧
      (df.operator_index k).2.size = df.size + 1) ∧
    (∀ k', k' ≠ k →
      (df.operator_index k).2.Has k' = df.Has k' ∧
      (df.operator_index k).2.operator_index_const k' = df.operator_index_const k') := by
  refine ⟨?_, ?_, ?_⟩
  · intro hyes
    rcases DataFrame.operator_index_cases df k with ⟨e, hf, hop⟩ | ⟨hf, -⟩
    · rw [hop]
      exact ⟨rfl, by simp [DataFrame.operator_index_const, hf]⟩
    · rw [(DataFrame.Has_eq_false_iff_find df k).2 hf] at hyes
      cases hyes
  · intro hno
    have hf := (DataFrame.Has_eq_false_iff_find df k).1 hno
    rcases DataFrame.operator_index_cases df k with ⟨e, hf', -⟩ | ⟨-, hop⟩
    · rw [hf] at hf'
      cases hf'
    · rw [hop]
      exact ⟨rfl, by simp [DataFrame.size]⟩
  · intro k' hk'
    rcases DataFrame.operator_index_cases df k with ⟨e, -, hop⟩ | ⟨-, hop⟩
    · rw [hop]
      exact ⟨rfl, rfl⟩
    · rw [hop]
      have hfind : (df.storage ++ [(k, (default : V))]).find? (fun e => decide (e.1 = k')) =
          df.storage.find? (fun e => decide (e.1 = k')) := by
        rw [List.find?_append]
        have : ([(k, (default : V))]).find? (fun e => decide (e.1 = k')) = none := by
          simp [Ne.symm hk']
        rw [this]
        cases df.storage.find? (fun e => decide (e.1 = k')) <;> rfl
      constructor
      · have h1 := DataFrame.Has_iff_find (⟨df.storage ++ [(k, default)]⟩ : DataFrame K V) k'
        have h2 := DataFrame.Has_iff_find df k'
        simp only [hfind] at h1
        cases ha : (⟨df.storage ++ [(k, default)]⟩ : DataFrame K V).Has k' <;>
          cases hb : df.Has k' <;> simp_all
      · simp only [DataFrame.operator_index_const, hfind]

end Claims

/-! ## The errors of `ReadFrom` -/

/-- A text begins with itself. -/
theorem startsWith_append (part rest : List Char) : startsWith (part ++ rest) part = true := by
  induction part with
  | nil => cases rest <;> rfl
  | cons a part ih => simp [startsWith, ih]

/-- A text that begins with `part` has `part` in it. -/
theorem occursIn_of_startsWith (part text : List Char) (h : startsWith text part = true) :
    occursIn part text = true := by
  cases text with
  | nil =>
    cases part with
    | nil => rfl
    | cons b part => simp [startsWith] at h
  | cons a text => simp [occursIn, h]

/-- A run of characters occurs in every text built around it. -/
theorem occursIn_append (part before after : List Char) :
    occursIn part (before ++ (part ++ after)) = true := by
  induction before with
  | nil => exact occursIn_of_startsWith _ _ (startsWith_append part after)
  | cons a before ih =>
    show (startsWith (a :: (before ++ (part ++ after))) part ||
      occursIn part (before ++ (part ++ after))) = true
    rw [ih, Bool.or_true]

/-- A message put together from three pieces carries the middle one. -/
theorem carries_of_data (message part : String) (before after : List Char)
    (h : message.data = before ++ (part.data ++ after)) : carries message part = true := by
  simp only [carries, h, occursIn_append]

theorem carries_noHeader (path : String) : carries (path ++ " has no header") path = true :=
  carries_of_data _ _ [] " has no header".data (by simp)

theorem carries_noColumn (path column : String) :
    carries (noColumnMessage path column) path = true ∧
    carries (noColumnMessage path column) column = true :=
  ⟨carries_of_data _ _ [] (" has no '" ++ column ++ "' column").data
      (by simp [noColumnMessage]),
    carries_of_data _ _ (path ++ " has no '").data "' column".data
      (by simp [noColumnMessage])⟩

theorem carries_range (path : String) (index : Nat) :
    carries (rangeMessage path index) path = true ∧
    carries (rangeMessage path index) (toString index) = true :=
  ⟨carries_of_data _ _ ("Column index " ++ toString index ++ " is" ++ "out of range for ").data
      [] (by simp [rangeMessage]),
    carries_of_data _ _ "Column index ".data (" is" ++ "out of range for " ++ path).data
      (by simp [rangeMessage])⟩

section Errors

variable {K T V D F G : Type}

theorem decodeCall_eq_error {α : Type} (r : Except String α) (e : Exception) :
    decodeCall r = .error e ↔ ∃ what, r = .error what ∧ e = .decode what := by
  cases r <;> simp [decodeCall, eq_comm]

theorem bind_eq_error {ε α β : Type} (x : Except ε α) (f : α → Except ε β) (e : ε) :
    (x >>= f) = .error e ↔ x = .error e ∨ ∃ a, x = .ok a ∧ f a = .error e := by
  cases x <;> simp [bind, Except.bind]

/-- The inner loop fails only with what the value decoder throws. -/
theorem addPoints_error (c : Collaborators K T V D F G) (row : Row) (time : T)
    (position : D × D × D) :
    ∀ (ds : List Nat) (fs : List F) (e : Exception),
      addPoints c row time position ds fs = .error e → ThrownByDecoder c e := by
  intro ds
  induction ds with
  | nil =>
    intro fs e h
    cases fs <;> simp [addPoints, pure, Except.pure] at h
  | cons j ds ih =>
    intro fs e h
    cases fs with
    | nil => simp [addPoints, pure, Except.pure] at h
    | cons f fs =>
      simp only [addPoints, bind_eq_error, decodeCall_eq_error, decodeCall_eq_ok] at h
      rcases h with ⟨what, hw, rfl⟩ | ⟨v, -, h⟩
      · exact ⟨what, row j, rfl, Or.inr (Or.inr (Or.inl hw))⟩
      · rcases h with h | ⟨fs1, -, h⟩
        · exact ih fs e h
        · simp [pure, Except.pure] at h

/-- The row loop body fails only with what a decoder throws. -/
theorem readRow_error (c : Collaborators K T V D F G) (t : Nat) (cs : Nat × Nat × Nat)
    (ds : List Nat) (fs : List F) (row : Row) (e : Exception)
    (h : readRow c t cs ds fs row = .error e) : ThrownByDecoder c e := by
  simp only [readRow, bind_eq_error, decodeCall_eq_error, decodeCall_eq_ok] at h
  rcases h with ⟨what, hw, rfl⟩ | ⟨time, -, h⟩
  · exact ⟨what, _, rfl, Or.inl hw⟩
  · rcases h with ⟨what, hw, rfl⟩ | ⟨x, -, h⟩
    · exact ⟨what, _, rfl, Or.inr (Or.inl hw)⟩
    · rcases h with ⟨what, hw, rfl⟩ | ⟨y, -, h⟩
      · exact ⟨what, _, rfl, Or.inr (Or.inl hw)⟩
      · rcases h with ⟨what, hw, rfl⟩ | ⟨z, -, h⟩
        · exact ⟨what, _, rfl, Or.inr (Or.inl hw)⟩
        · exact addPoints_error c row time (x, y, z) ds fs e h

/-- The row loop fails only with what a decoder throws. -/
theorem rowLoop_error (c : Collaborators K T V D F G) (t : Nat) (cs : Nat × Nat × Nat)
    (ds : List Nat) :
    ∀ (rows : List Row) (fs : List F) (e : Exception),
      rows.foldlM (readRow c t cs ds) fs = .error e → ThrownByDecoder c e := by
  intro rows
  induction rows with
  | nil =>
    intro fs e h
    simp [List.foldlM, pure, Except.pure] at h
  | cons row rows ih =>
    intro fs e h
    simp only [List.foldlM, bind_eq_error] at h
    rcases h with h | ⟨fs1, -, h⟩
    · exact readRow_error c t cs ds fs row e h
    · exact ih fs1 e h

/-- The key of a column fails with the `std::out_of_range` of `Header().at` or with what the
key decoder throws. -/
theorem columnKey_error (c : Collaborators K T V D F G) (file : CSVFile) (j : Nat)
    (e : Exception) (h : columnKey c file j = .error e) :
    (e = .out_of_range ∧ file.Header ≠ [] ∧ file.Header.length ≤ j) ∨ ThrownByDecoder c e := by
  simp only [columnKey, bind_eq_error, decodeCall_eq_error] at h
  rcases h with h | ⟨key, -, what, hw, rfl⟩
  · left
    simp only [keyText] at h
    cases hh : file.Header with
    | nil => simp [hh] at h
    | cons a l =>
      simp only [hh, List.isEmpty_cons, Bool.not_false, if_true] at h
      cases hj : (a :: l)[j]? with
      | some name => simp [hj] at h
      | none =>
        simp only [hj, Except.error.injEq] at h
        refine ⟨h.symm, by simp, ?_⟩
        by_contra hlt
        rw [List.getElem?_eq_getElem (by omega)] at hj
        cases hj
  · exact Or.inr ⟨what, key, rfl, Or.inr (Or.inr (Or.inr hw))⟩

/-- A failing `mapM` fails with the error of one of its elements. -/
theorem mapM_error {α β : Type} (f : α → Except Exception β) :
    ∀ (ds : List α) (e : Exception), ds.mapM f = .error e → ∃ j ∈ ds, f j = .error e := by
  intro ds
  induction ds with
  | nil =>
    intro e h
    simp only [List.mapM_nil, pure, Except.pure] at h
    cases h
  | cons j ds ih =>
    intro e h
    simp only [List.mapM_cons, bind_eq_error] at h
    rcases h with h | ⟨k, -, h⟩
    · exact ⟨j, by simp, h⟩
    · rcases h with h | ⟨ks, -, h⟩
      · obtain ⟨j', hj', hf⟩ := ih e h
        exact ⟨j', by simp [hj'], hf⟩
      · simp [pure, Except.pure] at h

/-- The three kinds of error of `ReadFrom` by index: the one of column resolution, which names
the first bad reserved index, what a decoder throws, and the `std::out_of_range` of
`Header().at`. -/
theorem ReadFromByIndex_error [DecidableEq K] [Inhabited G] (c : Collaborators K T V D F G)
    (file : CSVFile) (t : Nat) (cs : Nat × Nat × Nat) (e : Exception)
    (h : ReadFromByIndex c file t cs = .error e) :
    (∃ x, firstBad file.NumColumns [] [t, cs.1, cs.2.1, cs.2.2] = some x ∧
      resolveColumns file.Path file.NumColumns t cs = .error e ∧
      e = .invalid_argument (rangeMessage file.Path x)) ∨
    (∃ ds, resolveColumns file.Path file.NumColumns t cs = .ok ds ∧
      ((e = .out_of_range ∧ file.Header ≠ [] ∧ ∃ j ∈ ds, file.Header.length ≤ j) ∨
        ThrownByDecoder c e)) := by
  have spec := resolveColumns_spec file.Path file.NumColumns t cs.1 cs.2.1 cs.2.2
  rw [show (cs.1, cs.2.1, cs.2.2) = cs from rfl] at spec
  cases hb : firstBad file.NumColumns [] [t, cs.1, cs.2.1, cs.2.2] with
  | some x =>
    rw [hb] at spec
    left
    simp only [ReadFromByIndex, spec] at h
    cases h
    exact ⟨x, rfl, spec, rfl⟩
  | none =>
    rw [hb] at spec
    obtain ⟨ds, hds, -⟩ := spec
    right
    refine ⟨ds, hds, ?_⟩
    simp only [ReadFromByIndex, hds, bind_eq_error] at h
    rcases h with h | ⟨ds', hds', h⟩
    · cases h
    · simp only [Except.ok.injEq] at hds'
      subst hds'
      rcases h with h | ⟨fs, hfs, h⟩
      · exact Or.inr (rowLoop_error c t cs ds _ _ e h)
      · have hlen := (rowLoop_spec c t cs ds file.Data _ fs hfs (by simp)).1
        rw [populate_eq c file ds fs _ hlen] at h
        cases hks : ds.mapM (columnKey c file) with
        | ok ks => rw [hks] at h; cases h
        | error e' =>
          rw [hks] at h
          simp only [Except.map, Except.error.injEq] at h
          subst h
          obtain ⟨j, hj, hf⟩ := mapM_error (columnKey c file) ds e' hks
          rcases columnKey_error c file j e' hf with ⟨h1, h2, h3⟩ | h
          · exact Or.inl ⟨h1, h2, j, hj, h3⟩
          · exact Or.inr h

end Errors

section Claims

variable {K T V D F G : Type}

/-- C14, as stated, fails: the time cell `abc` of the one row does not decode; `ReadFrom` by
index fails with what the decoder threw, the text `stoi`, which does not carry the path
`f.csv`. -/
theorem ReadFromByIndex_decode_error_without_path :
    recording.readT "abc" = .error "stoi" ∧
    ReadFromByIndex recording
      ⟨"f.csv", ["t", "x", "y", "z", "temp"], 5, [rowOf ["abc", "0", "0", "0", "25.0"]]⟩
      0 (1, 2, 3) = .error (.decode "stoi") ∧
    carries "stoi" "f.csv" = false := by
  refine ⟨by decide, by decide, by decide⟩

/-- C14, amended: the errors that `ReadFrom` raises itself carry the path in their message:
the one of the empty header, the one of a missing named column, which also carries the column
name, and the one of an invalid reserved index, which also carries the index. Every other
error with which `ReadFrom` fails is what a decoder threw, passed on as it is, or the
`std::out_of_range` of `Header().at`; `ReadFrom` adds nothing to those. -/
theorem ReadFrom_error_messages [DecidableEq K] [Inhabited G] (c : Collaborators K T V D F G)
    (file : CSVFile) :
    (∀ (timeColumn : String) (coordinateColumns : String × String × String) (e : Exception),
      ReadFromByName c file timeColumn coordinateColumns = .error e →
      (e = .invalid_argument (file.Path ++ " has no header") ∧
        carries (file.Path ++ " has no header") file.Path = true) ∨
      (∃ column ∈ [timeColumn, coordinateColumns.1, coordinateColumns.2.1,
          coordinateColumns.2.2],
        column ∉ file.Header ∧
        e = .invalid_argument (noColumnMessage file.Path column) ∧
        carries (noColumnMessage file.Path column) file.Path = true ∧
        carries (noColumnMessage file.Path column) column = true) ∨
      (∃ index, e = .invalid_argument (rangeMessage file.Path index) ∧
        carries (rangeMessage file.Path index) file.Path = true ∧
        carries (rangeMessage file.Path index) (toString index) = true) ∨
      e = .out_of_range ∨ ThrownByDecoder c e) ∧
    (∀ (t : Nat) (cs : Nat × Nat × Nat) (e : Exception),
      ReadFromByIndex c file t cs = .error e →
      (∃ index ∈ [t, cs.1, cs.2.1, cs.2.2],
        e = .invalid_argument (rangeMessage file.Path index) ∧
        carries (rangeMessage file.Path index) file.Path = true ∧
        carries (rangeMessage file.Path index) (toString index) = true) ∨
      e = .out_of_range ∨ ThrownByDecoder c e) := by
  have hindex : ∀ (t : Nat) (cs : Nat × Nat × Nat) (e : Exception),
      ReadFromByIndex c file t cs = .error e →
      (∃ index ∈ [t, cs.1, cs.2.1, cs.2.2],
        e = .invalid_argument (rangeMessage file.Path index) ∧
        carries (rangeMessage file.Path index) file.Path = true ∧
        carries (rangeMessage file.Path index) (toString index) = true) ∨
      e = .out_of_range ∨ ThrownByDecoder c e := by
    intro t cs e h
    rcases ReadFromByIndex_error c file t cs e h with ⟨x, hx, -, he⟩ | ⟨ds, -, h⟩
    · left
      obtain ⟨before, after, hsplit, -⟩ := (firstBad_eq_some_iff _ _ _ _).1 hx
      refine ⟨x, ?_, he, (carries_range _ _).1, (carries_range _ _).2⟩
      rw [hsplit]
      simp
    · rcases h with ⟨h, -⟩ | h
      · exact Or.inr (Or.inl h)
      · exact Or.inr (Or.inr h)
  refine ⟨?_, hindex⟩
  intro timeColumn coordinateColumns e h
  have hmissing : ∀ column, column ∈ [timeColumn, coordinateColumns.1, coordinateColumns.2.1,
      coordinateColumns.2.2] → findColumn file column = .error e →
      ∃ column ∈ [timeColumn, coordinateColumns.1, coordinateColumns.2.1,
          coordinateColumns.2.2],
        column ∉ file.Header ∧
        e = .invalid_argument (noColumnMessage file.Path column) ∧
        carries (noColumnMessage file.Path column) file.Path = true ∧
        carries (noColumnMessage file.Path column) column = true := by
    intro column hmem hfind
    have hno : column ∉ file.Header := by
      intro hin
      rw [findColumn_of_mem file column hin] at hfind
      cases hfind
    rw [findColumn_of_not_mem file column hno] at hfind
    cases hfind
    exact ⟨column, hmem, hno, rfl, (carries_noColumn _ _).1, (carries_noColumn _ _).2⟩
  simp only [ReadFromByName] at h
  cases hh : file.Header.isEmpty with
  | true =>
    simp only [hh, if_true] at h
    left
    cases h
    exact ⟨rfl, carries_noHeader _⟩
  | false =>
    simp only [hh] at h
    right
    have h' : (findColumn file timeColumn >>= fun timeIndex =>
        findColumn file coordinateColumns.1 >>= fun c0 =>
        findColumn file coordinateColumns.2.1 >>= fun c1 =>
        findColumn file coordinateColumns.2.2 >>= fun c2 =>
        ReadFromByIndex c file timeIndex (c0, c1, c2)) = .error e := h
    simp only [bind_eq_error] at h'
    rcases h' with h0 | ⟨i0, -, h'⟩
    · exact Or.inl (hmissing _ (by simp) h0)
    · rcases h' with h1 | ⟨i1, -, h'⟩
      · exact Or.inl (hmissing _ (by simp) h1)
      · rcases h' with h2 | ⟨i2, -, h'⟩
        · exact Or.inl (hmissing _ (by simp) h2)
        · rcases h' with h3 | ⟨i3, -, h'⟩
          · exact Or.inl (hmissing _ (by simp) h3)
          · right
            rcases hindex i0 (i1, i2, i3) e h' with ⟨index, -, h1, h2, h3⟩ | h | h
            · exact Or.inl ⟨index, h1, h2, h3⟩
            · exact Or.inr (Or.inl h)
            · exact Or.inr (Or.inr h)

/-- C16: when column resolution fails, the index named in the error is the first of the time
index and the three coordinate indices, in that order, that is not below `NumColumns()` or is
equal to an earlier one: every index before it is in range and differs from the ones before
it. That error is the error of `ReadFrom` by index. With five columns, time index 0 and
coordinate indices (0, 9, 2) the error names 0. -/
theorem resolution_error_names_first_bad [DecidableEq K] [Inhabited G]
    (c : Collaborators K T V D F G) :
    (∀ (file : CSVFile) (t : Nat) (cs : Nat × Nat × Nat) (e : Exception),
      resolveColumns file.Path file.NumColumns t cs = .error e →
      ∃ before x after, [t, cs.1, cs.2.1, cs.2.2] = before ++ x :: after ∧
        (∀ y ∈ before, y < file.NumColumns) ∧ before.Nodup ∧
        (file.NumColumns ≤ x ∨ x ∈ before) ∧
        e = .invalid_argument (rangeMessage file.Path x) ∧
        ReadFromByIndex c file t cs = .error e) ∧
    (∀ (path : String), resolveColumns path 5 0 (0, 9, 2) =
      .error (.invalid_argument (rangeMessage path 0))) := by
  constructor
  · intro file t cs e h
    have spec := resolveColumns_spec file.Path file.NumColumns t cs.1 cs.2.1 cs.2.2
    rw [show (cs.1, cs.2.1, cs.2.2) = cs from rfl] at spec
    cases hb : firstBad file.NumColumns [] [t, cs.1, cs.2.1, cs.2.2] with
    | none =>
      rw [hb] at spec
      obtain ⟨ds, hds, -⟩ := spec
      rw [hds] at h
      cases h
    | some x =>
      rw [hb] at spec
      rw [spec] at h
      cases h
      obtain ⟨before, after, h1, h2, h3, h4⟩ := (firstBad_eq_some_iff _ _ _ _).1 hb
      refine ⟨before, x, after, h1, fun y hy => (h2 y hy).1, h3, ?_, rfl, ?_⟩
      · rcases h4 with h | h | h
        · exact Or.inl h
        · simp at h
        · exact Or.inr h
      · simp only [ReadFromByIndex, spec]
        rfl
  · intro path
    rfl

/-- Witness of C16: five columns, time index 0 and coordinate indices (0, 9, 2). -/
theorem resolution_error_names_first_bad_witness :
    resolveColumns "f.csv" 5 0 (0, 9, 2) =
      .error (.invalid_argument "Column index 0 isout of range for f.csv") ∧
    ∃ before x after, [0, 0, 9, 2] = before ++ x :: after ∧
      (∀ y ∈ before, y < 5) ∧ before.Nodup ∧ (5 ≤ x ∨ x ∈ before) ∧
      Exception.invalid_argument "Column index 0 isout of range for f.csv" =
        .invalid_argument (rangeMessage "f.csv" x) ∧
      ReadFromByIndex recording
        ⟨"f.csv", ["t", "x", "y", "z", "temp"], 5, [rowOf ["0", "0", "0", "0", "25.0"]]⟩
        0 (0, 9, 2) = .error (.invalid_argument "Column index 0 isout of range for f.csv") :=
  ⟨by decide,
    (resolution_error_names_first_bad recording).1
      ⟨"f.csv", ["t", "x", "y", "z", "temp"], 5, [rowOf ["0", "0", "0", "0", "25.0"]]⟩
      0 (0, 9, 2) _ (by decide)⟩

/-- C18: with an empty header `ReadFrom` by name fails with the `has no header` error, whatever
names are requested and whatever the rows and the decoders are; the message is made of the
path alone. So a container returned by `ReadFrom` by name comes from a non-empty header, and
the key texts of its columns are header names and not synthesized ones. -/
theorem ReadFromByName_no_header [DecidableEq K] [Inhabited G]
    (c : Collaborators K T V D F G) :
    (∀ (file : CSVFile) (timeColumn : String) (coordinateColumns : String × String × String),
      file.Header = [] →
      ReadFromByName c file timeColumn coordinateColumns =
        .error (.invalid_argument (file.Path ++ " has no header"))) ∧
    (∀ (file : CSVFile) (timeColumn : String) (coordinateColumns : String × String × String)
      (df : DataFrame K G),
      ReadFromByName c file timeColumn coordinateColumns = .ok df →
      file.Header ≠ [] ∧
      ∀ j key, keyText file j = .ok key → file.Header[j]? = some key) := by
  have hfirst : ∀ (file : CSVFile) (timeColumn : String)
      (coordinateColumns : String × String × String), file.Header = [] →
      ReadFromByName c file timeColumn coordinateColumns =
        .error (.invalid_argument (file.Path ++ " has no header")) := by
    intro file timeColumn coordinateColumns h
    simp only [ReadFromByName, h, List.isEmpty_nil, if_true]
    rfl
  refine ⟨hfirst, ?_⟩
  intro file timeColumn coordinateColumns df hok
  have hne : file.Header ≠ [] := by
    intro h
    rw [hfirst file timeColumn coordinateColumns h] at hok
    cases hok
  refine ⟨hne, ?_⟩
  intro j key hkey
  rcases (keyText_eq_ok_iff file j key).1 hkey with h | h
  · exact absurd h.1 hne
  · exact h.2

/-- Witness of C18: a source of five columns without header. -/
theorem ReadFromByName_no_header_witness :
    (⟨"f.csv", [], 5, [rowOf ["0", "0", "0", "0", "25.0"]]⟩ : CSVFile).Header = [] ∧
    ReadFromByName recording ⟨"f.csv", [], 5, [rowOf ["0", "0", "0", "0", "25.0"]]⟩
      "t" ("x", "y", "z") = .error (.invalid_argument "f.csv has no header") :=
  ⟨rfl,
    (ReadFromByName_no_header recording).1
      ⟨"f.csv", [], 5, [rowOf ["0", "0", "0", "0", "25.0"]]⟩ "t" ("x", "y", "z") rfl⟩

end Claims

/-! ## The order of the data columns -/

/-- One removal when the index sits at a known place and the last active element at another:
the element before `last` is copied over the index. -/
theorem removeIndex_swap (path : String) (pre mid garbage : List Nat) (x y last : Nat)
    (hx : x ∉ pre) (hlast : last = pre.length + mid.length + 2) :
    removeIndex path (pre ++ x :: (mid ++ y :: garbage), last) x =
      .ok (pre ++ y :: (mid ++ y :: garbage), last - 1) := by
  subst hlast
  have htake : (pre ++ x :: (mid ++ y :: garbage)).take (pre.length + mid.length + 2) =
      pre ++ x :: (mid ++ [y]) := by
    rw [show pre.length + mid.length + 2 = pre.length + (mid.length + 2) from by omega,
      List.take_append, List.take_succ_cons, List.take_append]
    rfl
  have hfind : stdFind (pre ++ x :: (mid ++ y :: garbage)) (pre.length + mid.length + 2) x =
      pre.length := by
    rw [stdFind, htake, List.indexOf_append_of_not_mem hx, List.indexOf_cons_self]
    rfl
  have hget : (pre ++ x :: (mid ++ y :: garbage)).getD (pre.length + mid.length + 1) 0 = y := by
    rw [List.getD_eq_getElem?_getD, List.getElem?_append_right (by omega),
      show pre.length + mid.length + 1 - pre.length = mid.length + 1 from by omega,
      List.getElem?_cons_succ, List.getElem?_append_right (by omega)]
    rw [Nat.sub_self]
    simp
  simp only [removeIndex, hfind]
  rw [if_neg (by omega)]
  rw [show pre.length + mid.length + 2 - 1 = pre.length + mid.length + 1 from by omega, hget]
  congr 2
  rw [List.set_append_right _ _ (by omega)]
  simp

/-- The columns from 0 to `n + 7`, split around the four first and the four last ones. -/
theorem range_split (n : Nat) :
    List.range (n + 8) =
      0 :: 1 :: 2 :: 3 :: (List.range' 4 n ++ [n + 4, n + 5, n + 6, n + 7]) := by
  have h : List.range' 4 (n + 4) = List.range' 4 n ++ [n + 4, n + 5, n + 6, n + 7] := by
    rw [show n + 4 = 4 + n from by omega, ← List.range'_append_1 4 n 4]
    simp only [List.range', List.append_cancel_left_eq, List.cons.injEq, and_true, true_and]
    refine ⟨by omega, by omega, by omega⟩
  rw [List.range_eq_range', show n + 8 = (n + 4) + 4 from by omega,
    ← List.range'_append_1 0 4 (n + 4), h]
  rfl

/-- The default reserved indices on at least eight columns: the four last columns take the
four first places, in reverse order. -/
theorem resolveColumns_default_wide (path : String) (n : Nat) :
    resolveColumns path (n + 8) 0 (1, 2, 3) =
      .ok ([n + 7, n + 6, n + 5, n + 4] ++ List.range' 4 n) := by
  have s1 := removeIndex_swap path [] ([1, 2, 3] ++ List.range' 4 n ++ [n + 4, n + 5, n + 6])
    [] 0 (n + 7) (n + 8) (by simp) (by simp)
  have s2 := removeIndex_swap path [n + 7] ([2, 3] ++ List.range' 4 n ++ [n + 4, n + 5])
    [n + 7] 1 (n + 6) (n + 7) (by simp) (by simp; omega)
  have s3 := removeIndex_swap path [n + 7, n + 6] ([3] ++ List.range' 4 n ++ [n + 4])
    [n + 6, n + 7] 2 (n + 5) (n + 6) (by simp) (by simp; omega)
  have s4 := removeIndex_swap path [n + 7, n + 6, n + 5] (List.range' 4 n)
    [n + 5, n + 6, n + 7] 3 (n + 4) (n + 5) (by simp) (by simp; omega)
  rw [show n + 8 - 1 = n + 7 from by omega] at s1
  rw [show n + 7 - 1 = n + 6 from by omega] at s2
  rw [show n + 6 - 1 = n + 5 from by omega] at s3
  rw [show n + 5 - 1 = n + 4 from by omega] at s4
  simp only [List.nil_append, List.cons_append, List.append_assoc, List.singleton_append]
    at s1 s2 s3 s4
  simp only [resolveColumns, List.foldlM, range_split, bind, Except.bind, s1, s2, s3, s4, pure,
    Except.pure]
  congr 1
  have e : (n + 7) :: (n + 6) :: (n + 5) :: (n + 4) ::
        (List.range' 4 n ++ [n + 4, n + 5, n + 6, n + 7]) =
      ([n + 7, n + 6, n + 5, n + 4] ++ List.range' 4 n) ++ [n + 4, n + 5, n + 6, n + 7] := by
    simp
  rw [e]
  exact List.take_left' (by simp)

/-- C20: with the default reserved indices and at least four columns, `dataIndices` is the
descending run `N - 1, ..., max(4, N - 4)` followed by the ascending run `4, ..., N - 5`: `[]`
for four columns, `[4]` for five, `[5, 4]` for six and `[9, 8, 7, 6, 4, 5]` for ten. -/
theorem default_dataIndices (path : String) :
    (∀ N, 4 ≤ N →
      resolveColumns path N defaultTimeIndex defaultCoordinateIndices =
        .ok ((List.range' (max 4 (N - 4)) (N - max 4 (N - 4))).reverse ++
          List.range' 4 (N - 8))) ∧
    resolveColumns path 4 defaultTimeIndex defaultCoordinateIndices = .ok [] ∧
    resolveColumns path 5 defaultTimeIndex defaultCoordinateIndices = .ok [4] ∧
    resolveColumns path 6 defaultTimeIndex defaultCoordinateIndices = .ok [5, 4] ∧
    resolveColumns path 10 defaultTimeIndex defaultCoordinateIndices =
      .ok [9, 8, 7, 6, 4, 5] := by
  refine ⟨?_, rfl, rfl, rfl, rfl⟩
  intro N hN
  by_cases hsmall : N < 8
  · interval_cases N <;> rfl
  · obtain ⟨n, rfl⟩ : ∃ n, N = n + 8 := ⟨N - 8, by omega⟩
    have e1 : max 4 (n + 8 - 4) = n + 4 := by
      rw [show n + 8 - 4 = n + 4 from by omega]
      exact Nat.max_eq_right (by omega)
    rw [e1, show n + 8 - (n + 4) = 4 from by omega, show n + 8 - 8 = n from by omega]
    have e2 : (List.range' (n + 4) 4).reverse = [n + 7, n + 6, n + 5, n + 4] := by
      simp [List.range']
    rw [e2]
    exact resolveColumns_default_wide path n

/-- Witness of C20: ten columns. -/
theorem default_dataIndices_witness :
    4 ≤ 10 ∧
    resolveColumns "f.csv" 10 defaultTimeIndex defaultCoordinateIndices =
      .ok ((List.range' (max 4 (10 - 4)) (10 - max 4 (10 - 4))).reverse ++
        List.range' 4 (10 - 8)) ∧
    (List.range' (max 4 (10 - 4)) (10 - max 4 (10 - 4))).reverse ++ List.range' 4 (10 - 8) =
      [9, 8, 7, 6, 4, 5] :=
  ⟨by decide, (default_dataIndices "f.csv").1 10 (by decide), by decide⟩

section Claims

variable {K T V D F G : Type}

end Claims

/-! ## Columns that share a key -/

namespace DataFrame

variable {K V : Type} [DecidableEq K]

/-- The keys of the entries after `df[k] = g`: the key is added at the end when it is new. -/
theorem keys_assign [Inhabited V] (df : DataFrame K V) (k : K) (g : V) :
    (df.assign k g).storage.map Prod.fst =
      if df.Has k = true then df.storage.map Prod.fst else df.storage.map Prod.fst ++ [k] := by
  have hkeys : ∀ l : List (K × V),
      (l.map (fun e => if e.1 = k then (e.1, g) else e)).map Prod.fst = l.map Prod.fst := by
    intro l
    rw [List.map_map]
    apply List.map_congr_left
    intro e _
    by_cases h : e.1 = k <;> simp [h]
  simp only [assign]
  rcases operator_index_cases df k with ⟨e, hf, hop⟩ | ⟨hf, hop⟩
  · have hhas : df.Has k = true := by
      rw [Has_iff_find, hf]
      rfl
    rw [hop, hkeys, if_pos hhas]
  · have hhas : ¬ df.Has k = true := by
      rw [(Has_eq_false_iff_find df k).2 hf]
      simp
    rw [hop, hkeys, if_neg hhas]
    simp

/-- A key is present exactly when an entry has it. -/
theorem Has_iff_mem_keys (df : DataFrame K V) (k : K) :
    df.Has k = true ↔ k ∈ df.storage.map Prod.fst := by
  rw [Has_iff_find, List.find?_isSome]
  simp only [decide_eq_true_eq, List.mem_map]

/-- No key is entered twice by `df[k] = g`. -/
theorem nodup_keys_assign [Inhabited V] (df : DataFrame K V) (k : K) (g : V)
    (h : (df.storage.map Prod.fst).Nodup) : ((df.assign k g).storage.map Prod.fst).Nodup := by
  rw [keys_assign]
  split
  · exact h
  · next hno =>
    rw [Has_iff_mem_keys] at hno
    exact List.Nodup.append h (by simp) (by simpa using hno)

end DataFrame

section SharedKeys

variable {K T V D F G : Type}

/-- No key is entered twice by a run of assignments. -/
theorem nodup_keys_assignAll [DecidableEq K] [Inhabited G] :
    ∀ (entries : List (K × G)) (df : DataFrame K G), (df.storage.map Prod.fst).Nodup →
      ((assignAll df entries).storage.map Prod.fst).Nodup := by
  intro entries
  induction entries with
  | nil => intro df h; exact h
  | cons e entries ih =>
    intro df h
    rw [assignAll_cons]
    exact ih _ (DataFrame.nodup_keys_assign df e.1 e.2 h)

/-- A run of assignments on an empty container leaves one entry per distinct key. -/
theorem size_assignAll_empty [DecidableEq K] [Inhabited G] (entries : List (K × G)) :
    (assignAll (⟨[]⟩ : DataFrame K G) entries).size = (entries.map Prod.fst).dedup.length := by
  have hnd := nodup_keys_assignAll entries (⟨[]⟩ : DataFrame K G) (by simp)
  have hperm : ((assignAll (⟨[]⟩ : DataFrame K G) entries).storage.map Prod.fst).Perm
      (entries.map Prod.fst).dedup := by
    refine (List.perm_ext_iff_of_nodup hnd (List.nodup_dedup _)).2 ?_
    intro k
    rw [← DataFrame.Has_iff_mem_keys, Has_assignAll, List.mem_dedup]
    have hempty : ¬ (⟨[]⟩ : DataFrame K G).Has k = true := by
      simp [DataFrame.Has, DataFrame.count]
    simp [hempty]
  have := hperm.length_eq
  simpa [DataFrame.size] using this

/-- The last assignment to a key decides what the key holds. -/
theorem get_assignAll_last [DecidableEq K] [Inhabited G] :
    ∀ (entries : List (K × G)) (df : DataFrame K G) (i : Nat) (k : K) (g : G),
      entries[i]? = some (k, g) →
      (∀ (i' : Nat) (e : K × G), i < i' → entries[i']? = some e → e.1 ≠ k) →
      (assignAll df entries).operator_index_const k = .ok g := by
  intro entries
  induction entries with
  | nil => intro df i k g h; simp at h
  | cons e entries ih =>
    intro df i k g h hlast
    rw [assignAll_cons]
    cases i with
    | zero =>
      simp only [List.getElem?_cons_zero, Option.some.injEq] at h
      subst h
      have hnot : k ∉ entries.map Prod.fst := by
        intro hmem
        obtain ⟨e', he', hk⟩ := List.mem_map.1 hmem
        obtain ⟨i', hi'⟩ := List.mem_iff_getElem?.1 he'
        exact hlast (i' + 1) e' (by omega) (by simpa using hi') hk
      rw [get_assignAll_of_not_mem entries _ k hnot, DataFrame.get_assign, if_pos rfl]
    | succ i =>
      simp only [List.getElem?_cons_succ] at h
      refine ih _ i k g h ?_
      intro i' e' hlt he'
      exact hlast (i' + 1) e' (by omega) (by simpa using he')

/-- Keys without duplicates come from columns with pairwise distinct keys. -/
theorem mapM_inj_of_nodup {α β : Type} (f : α → Except Exception β) :
    ∀ (ds : List α) (ks : List β), ds.mapM f = .ok ks → ks.Nodup →
      ∀ i ∈ ds, ∀ j ∈ ds, ∀ k, f i = .ok k → f j = .ok k → i = j := by
  intro ds
  induction ds with
  | nil => intro ks _ _ i hi; simp at hi
  | cons a ds ih =>
    intro ks h hnd i hi j hj k hfi hfj
    simp only [List.mapM_cons, bind_eq_ok] at h
    obtain ⟨ka, hka, ks', hks', h⟩ := h
    simp only [pure, Except.pure] at h
    cases h
    obtain ⟨hnot, hnd'⟩ := List.nodup_cons.1 hnd
    obtain ⟨-, hfwd, -, -⟩ := mapM_spec f ds ks' hks'
    rcases List.mem_cons.1 hi with rfl | hi' <;> rcases List.mem_cons.1 hj with rfl | hj'
    · rfl
    · exfalso
      obtain ⟨k', hk', hmem⟩ := hfwd j hj'
      rw [hfj] at hk'
      rw [hfi] at hka
      cases hk'
      cases hka
      exact hnot hmem
    · exfalso
      obtain ⟨k', hk', hmem⟩ := hfwd i hi'
      rw [hfi] at hk'
      rw [hfj] at hka
      cases hk'
      cases hka
      exact hnot hmem
    · exact ih ks' hks' hnd' i hi' j hj' k hfi hfj

/-- The grid under a key is built by the last column, in the order of `dataIndices`, that has
the key: from one sample per row of that column, in row order. -/
theorem grid_of_last [DecidableEq K] [Inhabited G] (c : Collaborators K T V D F G)
    (file : CSVFile) (t : Nat) (cs : Nat × Nat × Nat) (ds : List Nat) (fs : List F)
    (ks : List K)
    (hfs : file.Data.foldlM (readRow c t cs ds) (List.replicate ds.length c.newFactory) =
      .ok fs)
    (hks : ds.mapM (columnKey c file) = .ok ks) (i j : Nat) (k : K)
    (hi : ds[i]? = some j) (hk : columnKey c file j = .ok k)
    (hlast : ∀ (i' j' : Nat), i < i' → ds[i']? = some j' → columnKey c file j' ≠ .ok k) :
    ∃ samples, file.Data.mapM (fun row => rowSample c t cs row j) = .ok samples ∧
      (assignAll (⟨[]⟩ : DataFrame K G) (ks.zip (fs.map c.Build))).operator_index_const k =
        .ok (c.Build (samples.foldl (addSample c) c.newFactory)) := by
  obtain ⟨hlen, -, hfeed⟩ := rowLoop_spec c t cs ds file.Data _ fs hfs (by simp)
  obtain ⟨hklen, -, -, hkey⟩ := mapM_spec (columnKey c file) ds ks hks
  have hilt : i < ds.length := by
    by_contra hge
    rw [List.getElem?_eq_none (by omega)] at hi
    cases hi
  obtain ⟨k', hk', hki⟩ := hkey i j hi
  rw [hk] at hk'
  cases hk'
  obtain ⟨samples, hsamples, hfi⟩ :=
    hfeed i j c.newFactory hi (by simp [List.getElem?_replicate, hilt])
  refine ⟨samples, hsamples, ?_⟩
  apply get_assignAll_last _ _ i
  · rw [List.getElem?_zip_eq_some]
    exact ⟨hki, by simp [hfi]⟩
  · intro i' e hlt he
    rw [List.getElem?_zip_eq_some] at he
    have hi'lt : i' < ds.length := by
      by_contra hge
      rw [List.getElem?_eq_none (by omega)] at he
      cases he.1
    obtain ⟨k'', hk'', hki'⟩ := hkey i' ds[i'] (List.getElem?_eq_getElem hi'lt)
    rw [he.1] at hki'
    cases hki'
    intro heq
    exact hlast i' ds[i'] hlt (List.getElem?_eq_getElem hi'lt) (heq ▸ hk'')

end SharedKeys

section Claims

variable {K T V D F G : Type}

/-- C17: a container returned by `ReadFrom` by index has one entry per distinct key of the
surviving columns; when two surviving columns have the same key it has fewer than
`NumColumns() - 4` entries, and the grid under a key is the one built from the column that
comes last in `dataIndices` among those with that key. For header `t,x,y,z,a,a` and the default
reserved indices `dataIndices` is `[5, 4]` and the key `a` holds the grid of column 4. -/
theorem shared_key_last_wins [DecidableEq K] [Inhabited G] (c : Collaborators K T V D F G) :
    (∀ (file : CSVFile) (t : Nat) (cs : Nat × Nat × Nat) (df : DataFrame K G) (ds : List Nat),
      ReadFromByIndex c file t cs = .ok df →
      resolveColumns file.Path file.NumColumns t cs = .ok ds →
      (∃ ks, ds.mapM (columnKey c file) = .ok ks ∧ df.size = ks.dedup.length ∧
        ∀ k, df.Has k = true ↔ k ∈ ks) ∧
      ((∃ i ∈ ds, ∃ j ∈ ds, i ≠ j ∧
          ∃ k, columnKey c file i = .ok k ∧ columnKey c file j = .ok k) →
        df.size < file.NumColumns - 4) ∧
      (∀ (before : List Nat) (j : Nat) (after : List Nat) (k : K),
        ds = before ++ j :: after → columnKey c file j = .ok k →
        (∀ j' ∈ after, columnKey c file j' ≠ .ok k) →
        ∃ samples, file.Data.mapM (fun row => rowSample c t cs row j) = .ok samples ∧
          df.operator_index_const k =
            .ok (c.Build (samples.foldl (addSample c) c.newFactory)))) ∧
    (resolveColumns "f.csv" 6 defaultTimeIndex defaultCoordinateIndices = .ok [5, 4] ∧
      ReadFromByIndex recording
        ⟨"f.csv", ["t", "x", "y", "z", "a", "a"], 6, [rowOf ["0", "0", "0", "0", "1", "2"]]⟩
        defaultTimeIndex defaultCoordinateIndices =
        .ok ⟨[("a", [⟨0, (0, 0, 0), "1"⟩])]⟩) := by
  refine ⟨?_, by decide, by decide⟩
  intro file t cs df ds hok hds
  obtain ⟨ds', fs, ks, hds', hfs, hks, hdf⟩ := (ReadFromByIndex_eq_ok_iff c file t cs df).1 hok
  rw [hds] at hds'
  cases hds'
  obtain ⟨hnd, hdslen, -, -⟩ := resolveColumns_ok _ _ _ _ _ hds
  obtain ⟨hlen, -, -⟩ := rowLoop_spec c t cs ds file.Data _ fs hfs (by simp)
  obtain ⟨hklen, -, -, -⟩ := mapM_spec (columnKey c file) ds ks hks
  have hfst : (ks.zip (fs.map c.Build)).map Prod.fst = ks :=
    List.map_fst_zip _ _ (by simp [hklen, hlen])
  have hsize : df.size = ks.dedup.length := by
    rw [hdf, size_assignAll_empty, hfst]
  refine ⟨⟨ks, hks, hsize, ?_⟩, ?_, ?_⟩
  · intro k
    rw [hdf, Has_assignAll, hfst]
    have hempty : ¬ (⟨[]⟩ : DataFrame K G).Has k = true := by
      simp [DataFrame.Has, DataFrame.count]
    simp [hempty]
  · rintro ⟨i, hi, j, hj, hne, k, hki, hkj⟩
    have hdup : ¬ ks.Nodup := fun hknd =>
      hne (mapM_inj_of_nodup (columnKey c file) ds ks hks hknd i hi j hj k hki hkj)
    have hle := (List.dedup_sublist ks).length_le
    have hlt : ks.dedup.length < ks.length := by
      by_contra hge
      have := (List.dedup_sublist ks).eq_of_length_le (by omega)
      exact hdup (List.dedup_eq_self.1 this)
    rw [hsize, ← hdslen, ← hklen]
    exact hlt
  · intro before j after k hsplit hkj hafter
    have hi : ds[before.length]? = some j := by
      rw [hsplit, List.getElem?_append_right (Nat.le_refl _)]
      simp
    obtain ⟨samples, hsamples, hget⟩ := grid_of_last c file t cs ds fs ks hfs hks
      before.length j k hi hkj (by
        intro i' j' hlt hi'
        apply hafter
        rw [hsplit, List.getElem?_append_right (Nat.le_of_lt hlt)] at hi'
        obtain ⟨m, hm⟩ : ∃ m, i' - before.length = m + 1 := ⟨i' - before.length - 1, by omega⟩
        rw [hm, List.getElem?_cons_succ] at hi'
        exact List.getElem?_mem hi')
    exact ⟨samples, hsamples, by rw [hdf]; exact hget⟩

/-- Witness of C17: header `t,x,y,z,a,a`; the key `a` holds the grid of column 4, whose cell
is `1`, and the container has one entry. -/
theorem shared_key_last_wins_witness :
    ReadFromByIndex recording
      ⟨"f.csv", ["t", "x", "y", "z", "a", "a"], 6, [rowOf ["0", "0", "0", "0", "1", "2"]]⟩
      0 (1, 2, 3) = .ok ⟨[("a", [⟨0, (0, 0, 0), "1"⟩])]⟩ ∧
    resolveColumns "f.csv" 6 0 (1, 2, 3) = .ok [5, 4] ∧
    (⟨[("a", [⟨0, (0, 0, 0), "1"⟩])]⟩ :
      DataFrame String (List (Sample Nat String Nat))).size < 6 - 4 :=
  ⟨by decide, by decide,
    ((shared_key_last_wins recording).1
      ⟨"f.csv", ["t", "x", "y", "z", "a", "a"], 6, [rowOf ["0", "0", "0", "0", "1", "2"]]⟩
      0 (1, 2, 3) ⟨[("a", [⟨0, (0, 0, 0), "1"⟩])]⟩ [5, 4] (by decide) (by decide)).2.1
      ⟨5, by decide, 4, by decide, by decide, "a", by decide, by decide⟩⟩

/-- What the reference pipeline returns, in its stages. -/
theorem ReadFromReference_eq_ok_iff [DecidableEq K] [Inhabited G]
    (c : Collaborators K T V D F G) (file : CSVFile) (t : Nat) (cs : Nat × Nat × Nat)
    (df : DataFrame K G) :
    ReadFromReference c file t cs = .ok df ↔
      ∃ fs ks,
        file.Data.foldlM (readRow c t cs (referenceDataIndices file.NumColumns t cs))
          (List.replicate (referenceDataIndices file.NumColumns t cs).length c.newFactory) =
          .ok fs ∧
        (referenceDataIndices file.NumColumns t cs).mapM (columnKey c file) = .ok ks ∧
        df = assignAll ⟨[]⟩ (ks.zip (fs.map c.Build)) := by
  simp only [ReadFromReference, bind_eq_ok]
  constructor
  · rintro ⟨fs, hfs, hpop⟩
    have hlen := (rowLoop_spec c t cs _ file.Data _ fs hfs (by simp)).1
    rw [populate_eq c file _ fs _ hlen] at hpop
    cases hks : (referenceDataIndices file.NumColumns t cs).mapM (columnKey c file) with
    | error e => rw [hks] at hpop; cases hpop
    | ok ks =>
      rw [hks] at hpop
      simp only [Except.map, Except.ok.injEq] at hpop
      exact ⟨fs, ks, hfs, rfl, hpop.symm⟩
  · rintro ⟨fs, ks, hfs, hks, hdf⟩
    have hlen := (rowLoop_spec c t cs _ file.Data _ fs hfs (by simp)).1
    refine ⟨fs, hfs, ?_⟩
    rw [populate_eq c file _ fs _ hlen, hks, hdf]
    rfl

/-- The two loops after column resolution succeed exactly when every needed cell decodes and
every data column has a key. -/
theorem loops_ok_iff (c : Collaborators K T V D F G) (file : CSVFile) (t : Nat)
    (cs : Nat × Nat × Nat) (ds : List Nat) :
    (∃ fs ks,
      file.Data.foldlM (readRow c t cs ds) (List.replicate ds.length c.newFactory) = .ok fs ∧
      ds.mapM (columnKey c file) = .ok ks) ↔
      (∀ row ∈ file.Data, RowDecodes c t cs ds row) ∧
      ∀ j ∈ ds, ∃ k, columnKey c file j = .ok k := by
  constructor
  · rintro ⟨fs, ks, hfs, hks⟩
    refine ⟨(rowLoop_spec c t cs ds file.Data _ fs hfs (by simp)).2.1, ?_⟩
    intro j hj
    obtain ⟨k, hk, -⟩ := (mapM_spec (columnKey c file) ds ks hks).2.1 j hj
    exact ⟨k, hk⟩
  · rintro ⟨hrows, hkeys⟩
    obtain ⟨fs, hfs⟩ := rowLoop_ok c t cs ds file.Data _ hrows
    obtain ⟨ks, hks⟩ := mapM_ok (columnKey c file) ds hkeys
    exact ⟨fs, ks, hfs, hks⟩

end Claims

section Claims

variable {K T V D F G : Type}

/-- A call fails exactly when it returns no value. -/
theorem error_iff_not_ok {ε α : Type} (x : Except ε α) :
    (∃ e, x = .error e) ↔ ¬ ∃ a, x = .ok a := by
  cases x <;> simp

/-- C15: for reserved indices that are in range and pairwise distinct and surviving columns
with pairwise distinct keys, `ReadFrom` by index, with its swap-with-last removal, and the
reference pipeline on the ascending set difference agree: one fails exactly when the other
does, and the containers they return have the same keys and the same grid under every key. -/
theorem ReadFromByIndex_agrees_with_reference [DecidableEq K] [Inhabited G]
    (c : Collaborators K T V D F G) (file : CSVFile) (t : Nat) (cs : Nat × Nat × Nat)
    (hrange : t < file.NumColumns ∧ cs.1 < file.NumColumns ∧ cs.2.1 < file.NumColumns ∧
      cs.2.2 < file.NumColumns)
    (hreserved : t ≠ cs.1 ∧ t ≠ cs.2.1 ∧ t ≠ cs.2.2 ∧ cs.1 ≠ cs.2.1 ∧ cs.1 ≠ cs.2.2 ∧
      cs.2.1 ≠ cs.2.2)
    (hkeys : ∀ i ∈ referenceDataIndices file.NumColumns t cs,
      ∀ j ∈ referenceDataIndices file.NumColumns t cs,
      ∀ k, columnKey c file i = .ok k → columnKey c file j = .ok k → i = j) :
    ((∃ e, ReadFromByIndex c file t cs = .error e) ↔
      ∃ e, ReadFromReference c file t cs = .error e) ∧
    (∀ df df', ReadFromByIndex c file t cs = .ok df → ReadFromReference c file t cs = .ok df' →
      ∀ k, df.Has k = df'.Has k ∧ df.operator_index_const k = df'.operator_index_const k) := by
  have spec := resolveColumns_spec file.Path file.NumColumns t cs.1 cs.2.1 cs.2.2
  rw [(firstBad_eq_none_iff _ _ _ _ _).2 ⟨hrange, hreserved⟩,
    show (cs.1, cs.2.1, cs.2.2) = cs from rfl] at spec
  obtain ⟨ds, hds, hnd, -, hmem⟩ := spec
  have hrnd : (referenceDataIndices file.NumColumns t cs).Nodup :=
    (List.nodup_range _).filter _
  have hsame : ∀ j, j ∈ ds ↔ j ∈ referenceDataIndices file.NumColumns t cs := by
    intro j
    rw [hmem j]
    simp [referenceDataIndices]
  have hkeys' : ∀ i ∈ ds, ∀ j ∈ ds, ∀ k, columnKey c file i = .ok k →
      columnKey c file j = .ok k → i = j :=
    fun i hi j hj => hkeys i ((hsame i).1 hi) j ((hsame j).1 hj)
  have hrows : ∀ row, RowDecodes c t cs ds row ↔
      RowDecodes c t cs (referenceDataIndices file.NumColumns t cs) row := by
    intro row
    simp only [RowDecodes, hsame]
  have hok : (∃ df, ReadFromByIndex c file t cs = .ok df) ↔
      ∃ df', ReadFromReference c file t cs = .ok df' := by
    have h1 : (∃ df, ReadFromByIndex c file t cs = .ok df) ↔
        (∀ row ∈ file.Data, RowDecodes c t cs ds row) ∧
        ∀ j ∈ ds, ∃ k, columnKey c file j = .ok k := by
      rw [← loops_ok_iff]
      constructor
      · rintro ⟨df, h⟩
        obtain ⟨ds', fs, ks, hds', hfs, hks, -⟩ := (ReadFromByIndex_eq_ok_iff c file t cs df).1 h
        rw [hds] at hds'
        cases hds'
        exact ⟨fs, ks, hfs, hks⟩
      · rintro ⟨fs, ks, hfs, hks⟩
        exact ⟨_, (ReadFromByIndex_eq_ok_iff c file t cs _).2 ⟨ds, fs, ks, hds, hfs, hks, rfl⟩⟩
    have h2 : (∃ df', ReadFromReference c file t cs = .ok df') ↔
        (∀ row ∈ file.Data,
          RowDecodes c t cs (referenceDataIndices file.NumColumns t cs) row) ∧
        ∀ j ∈ referenceDataIndices file.NumColumns t cs, ∃ k, columnKey c file j = .ok k := by
      rw [← loops_ok_iff]
      constructor
      · rintro ⟨df, h⟩
        obtain ⟨fs, ks, hfs, hks, -⟩ := (ReadFromReference_eq_ok_iff c file t cs df).1 h
        exact ⟨fs, ks, hfs, hks⟩
      · rintro ⟨fs, ks, hfs, hks⟩
        exact ⟨_, (ReadFromReference_eq_ok_iff c file t cs _).2 ⟨fs, ks, hfs, hks, rfl⟩⟩
    rw [h1, h2]
    simp only [hrows, hsame]
  refine ⟨by rw [error_iff_not_ok, error_iff_not_ok, hok], ?_⟩
  intro df df' hdf hdf' k
  obtain ⟨ds', fs, ks, hds', hfs, hks, hdfeq⟩ := (ReadFromByIndex_eq_ok_iff c file t cs df).1 hdf
  rw [hds] at hds'
  cases hds'
  obtain ⟨fs', ks', hfs', hks', hdfeq'⟩ := (ReadFromReference_eq_ok_iff c file t cs df').1 hdf'
  have hlen := (rowLoop_spec c t cs ds file.Data _ fs hfs (by simp)).1
  have hlen' := (rowLoop_spec c t cs _ file.Data _ fs' hfs' (by simp)).1
  obtain ⟨hklen, hfwd, hbwd, -⟩ := mapM_spec (columnKey c file) ds ks hks
  obtain ⟨hklen', hfwd', hbwd', -⟩ := mapM_spec (columnKey c file) _ ks' hks'
  have hfst : (ks.zip (fs.map c.Build)).map Prod.fst = ks :=
    List.map_fst_zip _ _ (by simp [hklen, hlen])
  have hfst' : (ks'.zip (fs'.map c.Build)).map Prod.fst = ks' :=
    List.map_fst_zip _ _ (by simp [hklen', hlen'])
  have hlastOf : ∀ (l : List Nat), l.Nodup →
      (∀ i ∈ l, ∀ j ∈ l, ∀ k, columnKey c file i = .ok k → columnKey c file j = .ok k →
        i = j) →
      ∀ (i j : Nat), l[i]? = some j → ∀ (i' j' : Nat), i < i' → l[i']? = some j' →
        columnKey c file j = .ok k → columnKey c file j' ≠ .ok k := by
    intro l hlnd hinj i j hi i' j' hlt hi' hkj hkj'
    have hjj : j' = j :=
      hinj j' (List.getElem?_mem hi') j (List.getElem?_mem hi) k hkj' hkj
    have hi'lt : i' < l.length := by
      by_contra hge
      rw [List.getElem?_eq_none (by omega)] at hi'
      cases hi'
    refine List.nodup_iff_getElem?_ne_getElem?.1 hlnd i i' hlt hi'lt ?_
    rw [hi, hi', hjj]
  have hget : df.operator_index_const k = df'.operator_index_const k := by
    by_cases hk : k ∈ ks
    · obtain ⟨j, hj, hkj⟩ := hbwd k hk
      obtain ⟨i, hi⟩ := List.mem_iff_getElem?.1 hj
      obtain ⟨i', hi'⟩ := List.mem_iff_getElem?.1 ((hsame j).1 hj)
      obtain ⟨samples, hsamples, hg⟩ := grid_of_last c file t cs ds fs ks hfs hks i j k hi hkj
        (fun i2 j2 hlt h2 => hlastOf ds hnd hkeys' i j hi i2 j2 hlt h2 hkj)
      obtain ⟨samples', hsamples', hg'⟩ := grid_of_last c file t cs _ fs' ks' hfs' hks' i' j k
        hi' hkj (fun i2 j2 hlt h2 => hlastOf _ hrnd hkeys i' j hi' i2 j2 hlt h2 hkj)
      rw [hsamples] at hsamples'
      cases hsamples'
      rw [hdfeq, hdfeq', hg, hg']
    · have hk' : k ∉ ks' := by
        intro hin
        obtain ⟨j, hj, hkj⟩ := hbwd' k hin
        obtain ⟨k2, hk2, hmem2⟩ := hfwd j ((hsame j).2 hj)
        rw [hkj] at hk2
        cases hk2
        exact hk hmem2
      rw [hdfeq, hdfeq', get_assignAll_of_not_mem _ _ k (by rw [hfst]; exact hk),
        get_assignAll_of_not_mem _ _ k (by rw [hfst']; exact hk')]
  refine ⟨?_, hget⟩
  have h1 := DataFrame.Has_iff_get df k
  have h2 := DataFrame.Has_iff_get df' k
  rw [hget] at h1
  exact Bool.eq_iff_iff.2 (h1.trans h2.symm)

/-- Witness of C15: header `t,x,y,z,a,b` on six columns; the implementation walks the data
columns as `[5, 4]`, the reference as `[4, 5]`, and the two containers hold the same grids. -/
theorem ReadFromByIndex_agrees_with_reference_witness :
    ReadFromByIndex recording
      ⟨"f.csv", ["t", "x", "y", "z", "a", "b"], 6, [rowOf ["0", "0", "0", "0", "1", "2"]]⟩
      0 (1, 2, 3) = .ok ⟨[("b", [⟨0, (0, 0, 0), "2"⟩]), ("a", [⟨0, (0, 0, 0), "1"⟩])]⟩ ∧
    ReadFromReference recording
      ⟨"f.csv", ["t", "x", "y", "z", "a", "b"], 6, [rowOf ["0", "0", "0", "0", "1", "2"]]⟩
      0 (1, 2, 3) = .ok ⟨[("a", [⟨0, (0, 0, 0), "1"⟩]), ("b", [⟨0, (0, 0, 0), "2"⟩])]⟩ ∧
    ∀ k : String,
      (⟨[("b", [⟨0, (0, 0, 0), "2"⟩]), ("a", [⟨0, (0, 0, 0), "1"⟩])]⟩ :
          DataFrame String (List (Sample Nat String Nat))).Has k =
        (⟨[("a", [⟨0, (0, 0, 0), "1"⟩]), ("b", [⟨0, (0, 0, 0), "2"⟩])]⟩ :
          DataFrame String (List (Sample Nat String Nat))).Has k ∧
      (⟨[("b", [⟨0, (0, 0, 0), "2"⟩]), ("a", [⟨0, (0, 0, 0), "1"⟩])]⟩ :
          DataFrame String (List (Sample Nat String Nat))).operator_index_const k =
        (⟨[("a", [⟨0, (0, 0, 0), "1"⟩]), ("b", [⟨0, (0, 0, 0), "2"⟩])]⟩ :
          DataFrame String (List (Sample Nat String Nat))).operator_index_const k :=
  ⟨by decide, by decide,
    (ReadFromByIndex_agrees_with_reference recording
      ⟨"f.csv", ["t", "x", "y", "z", "a", "b"], 6, [rowOf ["0", "0", "0", "0", "1", "2"]]⟩
      0 (1, 2, 3) (by decide) (by decide)
      (by
        intro i hi j hj k h1 h2
        have hi' : i = 4 ∨ i = 5 := by
          have : i ∈ [4, 5] := hi
          simpa using this
        have hj' : j = 4 ∨ j = 5 := by
          have : j ∈ [4, 5] := hj
          simpa using this
        have e4 : columnKey recording
            ⟨"f.csv", ["t", "x", "y", "z", "a", "b"], 6,
              [rowOf ["0", "0", "0", "0", "1", "2"]]⟩ 4 = .ok "a" := by decide
        have e5 : columnKey recording
            ⟨"f.csv", ["t", "x", "y", "z", "a", "b"], 6,
              [rowOf ["0", "0", "0", "0", "1", "2"]]⟩ 5 = .ok "b" := by decide
        rcases hi' with rfl | rfl <;> rcases hj' with rfl | rfl
        · rfl
        · rw [e4] at h1
          rw [e5] at h2
          rw [← h1] at h2
          exact absurd h2 (by decide)
        · rw [e5] at h1
          rw [e4] at h2
          rw [← h1] at h2
          exact absurd h2 (by decide)
        · rfl)).2 _ _ (by decide) (by decide)⟩

end Claims

end gz.common
